import Mathlib

/-!
# Generation windows and replica failover

A shallow embedding of two pieces of the repository:

* `mkGenerations` from `src/cm-reportbuild.cc`: the generation-window
  calculator that enumerates bucket ids looking back from a reference time,
  and the reports that `main` registers from its results;
* `SaveToTablePartitionTask` from
  `src/zbase/mapreduce/tasks/SaveToTablePartitionTask.cc`: shard creation,
  resolution of upstream result locations and replica failover.

`uint64_t` values are natural numbers; every arithmetic operation of the
source that can wrap is reduced modulo `2 ^ 64` explicitly.
-/

namespace CmReportBuild

/-- Number of values of a `uint64_t`. -/
def U64 : Nat := 2 ^ 64

/-- Modelled from the spec: `kMicrosPerSecond` is declared outside the given
sources; the reference time is "seconds since epoch ... scaled to the same
unit as window/range", the smallest unit being the microsecond. -/
def kMicrosPerSecond : Nat := 1000000

/-- Modelled from the spec: `kSecondsPerHour` is declared outside the given
sources (the end-to-end scenario equates 60 days with 60×24 hours). -/
def kSecondsPerHour : Nat := 3600

/-- Modelled from the spec: `kSecondsPerDay` is declared outside the given
sources (the end-to-end scenario tags a day as `[day*86400, (day+1)*86400)`). -/
def kSecondsPerDay : Nat := 86400

/-- What a call of `mkGenerations` can do: return the set, trap on the
integer division by a zero `gen_window`, or still be looping when the
fuel given to the model is used up. -/
inductive Outcome where
  | done (generations : Finset Nat)
  | divisionByZero
  | outOfFuel
  deriving DecidableEq

/-- The `for` loop of `mkGenerations`:
`for (uint64_t i = 1; i < bound; i += gen_window) generations.emplace((now - i) / gen_window)`,
with `bound = kMicrosPerSecond * range_secs`. The state is the counter `i`
and the set built so far; one unit of fuel is one evaluation of the loop
condition. -/
def mkGenerationsLoop (now gen_window bound : Nat) : Nat → Nat → Finset Nat → Outcome
  | 0, _, _ => Outcome.outOfFuel
  | fuel + 1, i, generations =>
    if i < bound then
      if gen_window = 0 then Outcome.divisionByZero
      else
        mkGenerationsLoop now gen_window bound fuel ((i + gen_window) % U64)
          (insert (((now + U64 - i) % U64) / gen_window) generations)
    else Outcome.done generations

/-- The function `mkGenerations(window_secs, range_secs, now_secs = 0)`. The wall clock
read by `WallClock::unixMicros()` is the explicit input `wallClockMicros`. -/
def mkGenerations (wallClockMicros window_secs range_secs now_secs fuel : Nat) : Outcome :=
  let now := if now_secs = 0 then wallClockMicros % U64 else (now_secs * kMicrosPerSecond) % U64
  let gen_window := (kMicrosPerSecond * window_secs) % U64
  mkGenerationsLoop now gen_window ((kMicrosPerSecond * range_secs) % U64) fuel 1 ∅

/-- Modelled from the spec: `kMicrosPerHour` is declared outside the given
sources; an hour in the unit of `kMicrosPerSecond`. -/
def kMicrosPerHour : Nat := 3600 * 1000000

/-- Modelled from the spec: `kMicrosPerDay` is declared outside the given
sources; a day in the unit of `kMicrosPerSecond`. -/
def kMicrosPerDay : Nat := 86400 * 1000000

/-- The set `day_gens` of `main` for the daily generation `og`:
`mkGenerations(4 * kSecondsPerHour, 1 * kSecondsPerDay, og * kSecondsPerDay)`. -/
def day_gens (wallClockMicros og fuel : Nat) : Outcome :=
  mkGenerations wallClockMicros (4 * kSecondsPerHour) (1 * kSecondsPerDay)
    ((og * kSecondsPerDay) % U64) fuel

/-- The time range `(g * kMicrosPerHour * 4, (g + 1) * kMicrosPerHour * 4)` that
`main` gives to the `CTRCounterTableSink` of the 4-hourly reports of
generation `g`. -/
def fourHourlySinkRange (g : Nat) : Nat × Nat :=
  ((g * kMicrosPerHour * 4) % U64, ((g + 1) * kMicrosPerHour * 4) % U64)

/-- The time range `((og) * kMicrosPerDay, (og + 1) * kMicrosPerDay)` that `main`
gives to the `CTRCounterTableSink` of the daily roll-ups of generation `og`. -/
def dailySinkRange (og : Nat) : Nat × Nat :=
  ((og * kMicrosPerDay) % U64, ((og + 1) * kMicrosPerDay) % U64)

/-- Number of passes of the loop when nothing wraps: `ceil (range / window)`. -/
def passes (window_secs range_secs : Nat) : Nat :=
  (range_secs + window_secs - 1) / window_secs

/-- The reference instant in microseconds that `mkGenerations` works with. -/
def nowMicros (wallClockMicros now_secs : Nat) : Nat :=
  if now_secs = 0 then wallClockMicros % U64 else (now_secs * kMicrosPerSecond) % U64

/-! ### The reports registered by `main` -/

/-- The set `month_gens` of `main` for the daily generation `og`:
`mkGenerations(1 * kSecondsPerDay, 30 * kSecondsPerDay, og * kSecondsPerDay)`. -/
def month_gens (wallClockMicros og fuel : Nat) : Outcome :=
  mkGenerations wallClockMicros (1 * kSecondsPerDay) (30 * kSecondsPerDay)
    ((og * kSecondsPerDay) % U64) fuel

/-- The nine file name patterns `"$0/dawanda_<stem>.$1.sstable"` of `main`, named by
their stem. -/
inductive Table where
  | joined_queries
  | ctr_by_position
  | ctr_stats
  | ctr_by_searchquery
  | ctr_by_searchterm_cross_e1
  | ctr_stats_daily
  | ctr_by_position_daily
  | related_terms
  | related_terms_30d
  deriving DecidableEq

/-- The stem of a pattern as it is written in `main`. -/
def Table.stem : Table → String
  | Table.joined_queries => "joined_queries"
  | Table.ctr_by_position => "ctr_by_position"
  | Table.ctr_stats => "ctr_stats"
  | Table.ctr_by_searchquery => "ctr_by_searchquery"
  | Table.ctr_by_searchterm_cross_e1 => "ctr_by_searchterm_cross_e1"
  | Table.ctr_stats_daily => "ctr_stats_daily"
  | Table.ctr_by_position_daily => "ctr_by_position_daily"
  | Table.related_terms => "related_terms"
  | Table.related_terms_30d => "related_terms_30d"

/-- Modelled from the spec: `StringUtil::format` is defined outside the given
sources; this is `StringUtil::format("$0/dawanda_<stem>.$1.sstable", dir, g)`,
the pattern with `$0` replaced by the artifact directory and `$1` by the
generation in decimal. -/
def sstablePath (dir : String) (table : Table) (g : Nat) : String :=
  dir ++ "/dawanda_" ++ table.stem ++ "." ++ toString g ++ ".sstable"

/-- The report classes that `main` instantiates. -/
inductive ReportKind where
  | CTRByPositionReport
  | CTRReport
  | CTRBySearchQueryReport
  | CTRBySearchTermCrossCategoryReport
  | CTRCounterMerge
  | RelatedTermsReport
  | TermInfoMerge
  deriving DecidableEq

/-- A report handed to `report_builder.addReport`: its class, the files its
table source reads, the file its table sink writes, and the time range
given to the sink (a `CTRCounterTableSink` has one, a `TermInfoTableSink`
has none). -/
structure Report where
  kind : ReportKind
  sources : Finset String
  sink : String
  range : Option (Nat × Nat)
  deriving DecidableEq

/-- The body of the loop `/* 4 hourly reports */` of `main` for the generation `g`:
the four reports in the order of their `addReport` calls; all read `jq_source`.
The arguments `ItemEligibility::ALL`, `"category1"`, `analyzer` and `index_reader`
do not bear on which files are read and written and are left out. -/
def hourlyReports (dir : String) (g : Nat) : List Report :=
  let jq_source : Finset String := {sstablePath dir Table.joined_queries g}
  [ { kind := ReportKind.CTRByPositionReport, sources := jq_source,
      sink := sstablePath dir Table.ctr_by_position g,
      range := some (fourHourlySinkRange g) },
    { kind := ReportKind.CTRReport, sources := jq_source,
      sink := sstablePath dir Table.ctr_stats g,
      range := some (fourHourlySinkRange g) },
    { kind := ReportKind.CTRBySearchQueryReport, sources := jq_source,
      sink := sstablePath dir Table.ctr_by_searchquery g,
      range := some (fourHourlySinkRange g) },
    { kind := ReportKind.CTRBySearchTermCrossCategoryReport, sources := jq_source,
      sink := sstablePath dir Table.ctr_by_searchterm_cross_e1 g,
      range := some (fourHourlySinkRange g) } ]

/-- The body of the loop `/* daily reports */` of `main` for the generation `og`,
given its sets `day_gens` and `month_gens`: the four reports in the order of
their `addReport` calls. -/
def dailyReports (dir : String) (og : Nat) (dayGens monthGens : Finset Nat) : List Report :=
  [ { kind := ReportKind.CTRCounterMerge,
      sources := dayGens.image (sstablePath dir Table.ctr_stats),
      sink := sstablePath dir Table.ctr_stats_daily og,
      range := some (dailySinkRange og) },
    { kind := ReportKind.CTRCounterMerge,
      sources := dayGens.image (sstablePath dir Table.ctr_by_position),
      sink := sstablePath dir Table.ctr_by_position_daily og,
      range := some (dailySinkRange og) },
    { kind := ReportKind.RelatedTermsReport,
      sources := dayGens.image (sstablePath dir Table.ctr_by_searchquery),
      sink := sstablePath dir Table.related_terms og,
      range := none },
    { kind := ReportKind.TermInfoMerge,
      sources := monthGens.image (sstablePath dir Table.related_terms),
      sink := sstablePath dir Table.related_terms_30d og,
      range := none } ]

/-- The wall clock as an explicit input of `main`: what `WallClock::unixMicros()`
returns in each call of `mkGenerations` that reads it. -/
structure WallClock where
  atHourly : Nat
  atDaily : Nat
  atDayGens : Nat → Nat
  atMonthGens : Nat → Nat

/-- The loop `/* daily reports */` of `main` over the generations `og` in iteration
order; `none` when a call of `mkGenerations` does not return a set. -/
def dailyLoop (clock : WallClock) (dir : String) (fuel : Nat) : List Nat → Option (List Report)
  | [] => some []
  | og :: rest =>
    match day_gens (clock.atDayGens og) og fuel, month_gens (clock.atMonthGens og) og fuel with
    | Outcome.done dayGens, Outcome.done monthGens =>
      match dailyLoop clock dir fuel rest with
      | some later => some (dailyReports dir og dayGens monthGens ++ later)
      | none => none
    | _, _ => none

/-- The reports that `main` registers with `report_builder`, in the order of the
`addReport` calls: the 4-hourly reports of every generation of
`mkGenerations(4 * kSecondsPerHour, 60 * kSecondsPerDay)`, then the daily
reports of every generation of `mkGenerations(1 * kSecondsPerDay, 60 * kSecondsPerDay)`.
A `Set<uint64_t>` is iterated in ascending order. -/
def registeredReports (clock : WallClock) (dir : String) (fuel : Nat) : Option (List Report) :=
  match mkGenerations clock.atHourly (4 * kSecondsPerHour) (60 * kSecondsPerDay) 0 fuel with
  | Outcome.done hourly =>
    match mkGenerations clock.atDaily (1 * kSecondsPerDay) (60 * kSecondsPerDay) 0 fuel with
    | Outcome.done daily =>
      match dailyLoop clock dir fuel (daily.sort (fun a b => a ≤ b)) with
      | some dailyPart =>
        some ((hourly.sort (fun a b => a ≤ b)).flatMap (hourlyReports dir) ++ dailyPart)
      | none => none
    | _ => none
  | _ => none

/-- A sequence of reports respects the dependency order when no report reads a
file that is the sink of a report registered after it. -/
def RespectsDependencyOrder (reports : List Report) : Prop :=
  reports.Pairwise (fun earlier later => later.sink ∉ earlier.sources)

/-- A wall clock that shows the same instant at every reading. -/
def frozenClock (micros : Nat) : WallClock :=
  { atHourly := micros, atDaily := micros, atDayGens := fun _ => micros,
    atMonthGens := fun _ => micros }

/-- The ids of the first `n` passes of the loop of `mkGenerations` for the
reference instant `now` (in microseconds) and the window `window_secs`. -/
def generationsSet (now window_secs n : Nat) : Finset Nat :=
  (Finset.range n).image
    (fun k => ((now + U64 - (1 + k * (kMicrosPerSecond * window_secs))) % U64)
      / (kMicrosPerSecond * window_secs))

/-- The set that `day_gens` returns for the generation `og`: six passes. -/
def dayGensSet (clock : WallClock) (og : Nat) : Finset Nat :=
  generationsSet (nowMicros (clock.atDayGens og) ((og * kSecondsPerDay) % U64))
    (4 * kSecondsPerHour) 6

/-- The set that `month_gens` returns for the generation `og`: thirty passes. -/
def monthGensSet (clock : WallClock) (og : Nat) : Finset Nat :=
  generationsSet (nowMicros (clock.atMonthGens og) ((og * kSecondsPerDay) % U64))
    (1 * kSecondsPerDay) 30

/-- The 4-hourly generations of `main`: 360 passes back from the wall clock. -/
def hourlyGenerations (clock : WallClock) : Finset Nat :=
  generationsSet (clock.atHourly % U64) (4 * kSecondsPerHour) 360

/-- The daily generations of `main`: 60 passes back from the wall clock. -/
def dailyGenerations (clock : WallClock) : Finset Nat :=
  generationsSet (clock.atDaily % U64) (1 * kSecondsPerDay) 60

/-- Value of a decimal digit character. -/
def digitValue (c : Char) : Nat := c.toNat - 48

/-- Value of a list of decimal digits read after the number `acc`. -/
def decimalValue (acc : Nat) (ds : List Char) : Nat :=
  ds.foldl (fun a c => a * 10 + digitValue c) acc

end CmReportBuild

namespace zbase

/-- Modelled from the spec: `SHA1Hash` is declared outside the given sources;
the partition key is "the hash/key used to select which replica set owns a
given unit of work". -/
abbrev SHA1Hash := String

/-- Modelled from the spec: `ReplicaRef` is declared outside the given
sources; it is "{network address, logical host id}". -/
structure ReplicaRef where
  addr : String
  name : String
  deriving DecidableEq

/-- Modelled from the spec: `ReplicationScheme` is declared outside the given
sources; `replicasFor(partition_key)` gives the ordered list of candidate
replica hosts. -/
structure ReplicationScheme where
  replicasFor : SHA1Hash → List ReplicaRef

/-- Modelled from the spec: `MapReduceShardResult` is declared outside the
given sources; a result says which host "produced a result at location L". -/
structure MapReduceShardResult where
  host : ReplicaRef
  location : String
  deriving DecidableEq

/-- Modelled from the spec: `MapReduceScheduler` is declared outside the given
sources; `getResultURL(index)` answers with the location of the result of
the shard with that index, or with nothing when the result is absent. -/
structure MapReduceScheduler where
  getResultURL : Nat → Option String

/-- Identity of a task object (what the pointer `this` stands for). -/
abbrev TaskRef := Nat

/-- Modelled from the spec: `MapReduceTaskShard` is declared outside the given
sources; a shard is "{owning Task, dependency list: indices/handles of
upstream Tasks' result shards}". -/
structure MapReduceTaskShard where
  task : TaskRef
  dependencies : List Nat
  deriving DecidableEq

/-- The list `MapReduceShardList` of all shards of a job. -/
abbrev MapReduceShardList := List MapReduceTaskShard

/-- Modelled from the spec: the base class `MapReduceTask` is declared outside
the given sources; a task "owns zero or more Shards" and exposes their
indices through `shards()`. -/
structure MapReduceTask where
  shards_ : List Nat
  deriving DecidableEq

/-- The accessor `MapReduceTask::shards()`. -/
def MapReduceTask.shards (t : MapReduceTask) : List Nat := t.shards_

/-- Modelled from the spec: `MapReduceTask::addShard` is defined outside the
given sources; the shard is appended to the job's shard list and its index
there joins the shard set owned by the task. -/
def MapReduceTask.addShard (t : MapReduceTask) (shard : MapReduceTaskShard)
    (shards : MapReduceShardList) : MapReduceTask × MapReduceShardList :=
  ({ shards_ := t.shards_ ++ [shards.length] }, shards ++ [shard])

/-- The members of `SaveToTablePartitionTask` on top of its base class. The members
`session_` and `auth_` are only handed on to logging and are left out. -/
structure SaveToTablePartitionTask extends MapReduceTask where
  table_name_ : String
  partition_key_ : SHA1Hash
  sources_ : List MapReduceTask
  repl_ : ReplicationScheme

/-- The loop `for (const auto& src : sources_) input.insert(input.end(), ...)`
of the constructor, started with the vector `input`. -/
def collectInput (input : List Nat) : List MapReduceTask → List Nat
  | [] => input
  | src :: rest => collectInput (input ++ src.shards) rest

/-- The constructor `SaveToTablePartitionTask::SaveToTablePartitionTask`; `self` is the
identity of the object under construction and `shards` the job's shard list,
which the constructor extends. -/
def SaveToTablePartitionTask.new (self : TaskRef) (table_name : String)
    (partition_key : SHA1Hash) (sources : List MapReduceTask)
    (shards : MapReduceShardList) (repl : ReplicationScheme) :
    SaveToTablePartitionTask × MapReduceShardList :=
  let input := collectInput [] sources
  let shard : MapReduceTaskShard := { task := self, dependencies := input }
  let registered := MapReduceTask.addShard { shards_ := [] } shard shards
  ({ toMapReduceTask := registered.1, table_name_ := table_name,
     partition_key_ := partition_key, sources_ := sources, repl_ := repl },
   registered.2)

/-- The first loop of `execute`: ask the scheduler for the result location of
every dependency and keep the locations that are present, in dependency
order (`continue` on an empty answer). -/
def collectInputTables (job : MapReduceScheduler) : List Nat → List String
  | [] => []
  | input :: rest =>
    match job.getResultURL input with
    | none => collectInputTables job rest
    | some input_tbl => input_tbl :: collectInputTables job rest

/-- The vector `input_tables` of `execute` after
`std::sort(input_tables.begin(), input_tables.end())`. -/
def inputTables (shard : MapReduceTaskShard) (job : MapReduceScheduler) : List String :=
  List.insertionSort (fun a b => a ≤ b) (collectInputTables job shard.dependencies)

/-- What one call of `executeRemote` can do: return a result, throw a
`StandardException` with the description `what`, or throw something that the
handler `catch (const StandardException& e)` does not catch. -/
inductive RemoteOutcome where
  | returned (result : Option MapReduceShardResult)
  | standardException (what : String)
  | otherException
  deriving DecidableEq

/-- The function `SaveToTablePartitionTask::executeRemote` of the source: it logs the
target and returns `None`. -/
def SaveToTablePartitionTask.executeRemote (_shard : MapReduceTaskShard)
    (_job : MapReduceScheduler) (_input_tables : List String) (_host : ReplicaRef) :
    RemoteOutcome :=
  RemoteOutcome.returned none

/-- How `execute` ends: it returns, it raises the `kRuntimeError` built by
`RAISEF`, or an exception that is not a `StandardException` passes through. -/
inductive ExecuteResult where
  | returned (result : Option MapReduceShardResult)
  | raisedRuntimeError (message : String)
  | uncaught
  deriving DecidableEq

/-- A run of `execute`: the hosts on which `executeRemote` was called, in call
order, and how the run ended. -/
structure ExecuteRun where
  attempts : List ReplicaRef
  result : ExecuteResult
  deriving DecidableEq

/-- Modelled from the spec: `StringUtil::join` is defined outside the given
sources; it "concatenates all per-host failure messages", with the separator
between neighbours. -/
def StringUtil.join (list : List String) (sep : String) : String :=
  sep.intercalate list

/-- Modelled from the spec: `RAISEF` and `StringUtil::format` are defined outside
the given sources; the text of
`"SaveToTablePartitionTask::execute failed: $0"` with `$0` replaced by the
argument. -/
def executeFailedMessage (arg : String) : String :=
  "SaveToTablePartitionTask::execute failed: " ++ arg

/-- The failover loop `for (const auto& host : hosts) { try { return ... } catch ... }`
of `execute` followed by the `RAISEF`; `errors` is the vector of recorded
descriptions (`e.what()`) and `attempts` the hosts tried so far. The call of
`logError` in the handler writes to the log only and is left out. -/
def executeLoop (remote : ReplicaRef → RemoteOutcome) :
    List ReplicaRef → List String → List ReplicaRef → ExecuteRun
  | [], errors, attempts =>
    { attempts := attempts,
      result := ExecuteResult.raisedRuntimeError
        (executeFailedMessage (StringUtil.join errors ", ")) }
  | host :: rest, errors, attempts =>
    match remote host with
    | RemoteOutcome.returned result =>
      { attempts := attempts ++ [host], result := ExecuteResult.returned result }
    | RemoteOutcome.standardException what =>
      executeLoop remote rest (errors ++ [what]) (attempts ++ [host])
    | RemoteOutcome.otherException =>
      { attempts := attempts ++ [host], result := ExecuteResult.uncaught }

/-- The function `SaveToTablePartitionTask::execute(shard, job)`. The behaviour of the
remote call is the parameter `executeRemote` (the source's own body is
`SaveToTablePartitionTask.executeRemote`). -/
def SaveToTablePartitionTask.execute (self : SaveToTablePartitionTask)
    (executeRemote : MapReduceTaskShard → MapReduceScheduler → List String →
      ReplicaRef → RemoteOutcome)
    (shard : MapReduceTaskShard) (job : MapReduceScheduler) : ExecuteRun :=
  let input_tables := inputTables shard job
  let hosts := self.repl_.replicasFor self.partition_key_
  executeLoop (executeRemote shard job input_tables) hosts [] []

/-! ### Sample data -/

/-- Three sample replicas. -/
def sampleHost (n : Nat) : ReplicaRef :=
  { addr := "10.0.0." ++ toString n ++ ":7003", name := "h" ++ toString n }

/-- A sample task whose replication scheme lists three replicas. -/
def sampleTask : SaveToTablePartitionTask :=
  { shards_ := [3], table_name_ := "ctr_stats", partition_key_ := "2fd4e1c6",
    sources_ := [], repl_ := { replicasFor := fun _ => [sampleHost 1, sampleHost 2, sampleHost 3] } }

/-- A sample shard with dependencies `[0, 1, 2]`. -/
def sampleShard : MapReduceTaskShard := { task := 7, dependencies := [0, 1, 2] }

/-- A sample scheduler: the results of shards 0 and 2 are present, that of
shard 1 is absent. -/
def sampleJob : MapReduceScheduler :=
  { getResultURL := fun i =>
      if i = 0 then some "c.sst" else if i = 2 then some "a.sst" else none }

/-- A sample remote call: the first two replicas fail, the third returns. -/
def sampleRemote (_shard : MapReduceTaskShard) (_job : MapReduceScheduler)
    (_input_tables : List String) (host : ReplicaRef) : RemoteOutcome :=
  if host = sampleHost 3 then
    RemoteOutcome.returned (some { host := host, location := "out.sst" })
  else RemoteOutcome.standardException (host.name ++ " is down")

/-- A sample remote call that fails on every replica. -/
def sampleRemoteDown (_shard : MapReduceTaskShard) (_job : MapReduceScheduler)
    (_input_tables : List String) (host : ReplicaRef) : RemoteOutcome :=
  RemoteOutcome.standardException (host.name ++ " is down")

/-- A sample task whose replication scheme lists the given replicas. -/
def sampleTaskOn (hosts : List ReplicaRef) : SaveToTablePartitionTask :=
  { shards_ := [3], table_name_ := "ctr_stats", partition_key_ := "2fd4e1c6",
    sources_ := [], repl_ := { replicasFor := fun _ => hosts } }

/-- A sample remote call that fails on every replica with the same description. -/
def sampleRemoteTimeout (_shard : MapReduceTaskShard) (_job : MapReduceScheduler)
    (_input_tables : List String) (_host : ReplicaRef) : RemoteOutcome :=
  RemoteOutcome.standardException "connection timed out"

end zbase

namespace CmReportBuild

/-! ## The loop of `mkGenerations` in closed form -/

theorem passes_lt_iff {w r k : Nat} (hw : 0 < w) : k < passes w r ↔ k * w < r := by
  unfold passes
  rw [Nat.lt_iff_add_one_le, Nat.le_div_iff_mul_le hw, Nat.add_mul]
  omega

theorem le_passes_mul {w r : Nat} (hw : 0 < w) : r ≤ passes w r * w := by
  by_contra h
  have h1 : passes w r * w < r := by omega
  have h2 := (passes_lt_iff (k := passes w r) hw).2 h1
  omega

/-- Loop invariant in closed form: when the counter cannot wrap and `m` more
passes remain, the loop ends and adds exactly the `m` ids of those passes. -/
theorem mkGenerationsLoop_eq (now gw bound : Nat) (hgw : 0 < gw) (hb : bound + gw ≤ U64) :
    ∀ (m fuel i : Nat) (acc : Finset Nat), m < fuel →
      (∀ k, k < m → i + k * gw < bound) → bound ≤ i + m * gw →
      mkGenerationsLoop now gw bound fuel i acc =
        Outcome.done (acc ∪ (Finset.range m).image
          (fun k => ((now + U64 - (i + k * gw)) % U64) / gw)) := by
  intro m
  induction m with
  | zero =>
    intro fuel i acc hf _ hge
    obtain ⟨f, rfl⟩ : ∃ f, fuel = f + 1 := ⟨fuel - 1, by omega⟩
    have hnot : ¬ i < bound := by omega
    simp [mkGenerationsLoop, hnot]
  | succ m ih =>
    intro fuel i acc hf hlt hge
    obtain ⟨f, rfl⟩ : ∃ f, fuel = f + 1 := ⟨fuel - 1, by omega⟩
    have hi : i < bound := by simpa using hlt 0 (Nat.succ_pos m)
    have hne : gw ≠ 0 := by omega
    have hmod : (i + gw) % U64 = i + gw := Nat.mod_eq_of_lt (by omega)
    have hstep : ∀ k, k < m → i + gw + k * gw < bound := by
      intro k hk
      have := hlt (k + 1) (by omega)
      rw [Nat.add_mul] at this
      omega
    have hend : bound ≤ i + gw + m * gw := by
      rw [Nat.add_mul] at hge
      omega
    rw [mkGenerationsLoop, if_pos hi, if_neg hne, hmod,
      ih f (i + gw) _ (by omega) hstep hend]
    congr 1
    ext x
    simp only [Finset.mem_union, Finset.mem_insert, Finset.mem_image, Finset.mem_range]
    constructor
    · rintro ((rfl | hx) | ⟨k, hk, rfl⟩)
      · exact Or.inr ⟨0, Nat.succ_pos m, by simp⟩
      · exact Or.inl hx
      · refine Or.inr ⟨k + 1, by omega, ?_⟩
        have : i + (k + 1) * gw = i + gw + k * gw := by rw [Nat.add_mul]; omega
        rw [this]
    · rintro (hx | ⟨k, hk, rfl⟩)
      · exact Or.inl (Or.inr hx)
      · cases k with
        | zero => exact Or.inl (Or.inl (by simp))
        | succ k =>
          refine Or.inr ⟨k, by omega, ?_⟩
          have : i + (k + 1) * gw = i + gw + k * gw := by rw [Nat.add_mul]; omega
          rw [this]

/-- When neither the window nor the loop counter wraps, `mkGenerations` ends
after `passes` passes and returns the ids of those passes (the subtraction
`now - i` may still wrap). -/
theorem mkGenerations_eq_image (wall w r t fuel : Nat) (hw : 0 < w)
    (hno : (r + w) * kMicrosPerSecond < U64) (hf : passes w r < fuel) :
    mkGenerations wall w r t fuel =
      Outcome.done ((Finset.range (passes w r)).image
        (fun k => ((nowMicros wall t + U64 - (1 + k * (kMicrosPerSecond * w))) % U64)
          / (kMicrosPerSecond * w))) := by
  have hgw : (kMicrosPerSecond * w) % U64 = kMicrosPerSecond * w :=
    Nat.mod_eq_of_lt (by simp only [kMicrosPerSecond] at hno ⊢; omega)
  have hbd : (kMicrosPerSecond * r) % U64 = kMicrosPerSecond * r :=
    Nat.mod_eq_of_lt (by simp only [kMicrosPerSecond] at hno ⊢; omega)
  have hpos : 0 < kMicrosPerSecond * w := by simp only [kMicrosPerSecond]; omega
  have h := mkGenerationsLoop_eq (nowMicros wall t) (kMicrosPerSecond * w)
    (kMicrosPerSecond * r) hpos (by simp only [kMicrosPerSecond] at hno ⊢; omega)
    (passes w r) fuel 1 ∅ hf
    (by
      intro k hk
      have h1 := (passes_lt_iff hw).1 hk
      have h2 : k * (kMicrosPerSecond * w) = kMicrosPerSecond * (k * w) := by ring
      rw [h2]
      simp only [kMicrosPerSecond]
      omega)
    (by
      have h1 := le_passes_mul (r := r) hw
      have h2 : passes w r * (kMicrosPerSecond * w) = kMicrosPerSecond * (passes w r * w) := by
        ring
      rw [h2]
      simp only [kMicrosPerSecond]
      omega)
  simp only [mkGenerations, hgw, hbd]
  rw [show (if t = 0 then wall % U64 else (t * kMicrosPerSecond) % U64) = nowMicros wall t from rfl,
    h, Finset.empty_union]

/-- The id of pass `k` when the subtraction does not wrap either. -/
theorem pass_id_eq (w r t k : Nat) (ht : t * kMicrosPerSecond < U64)
    (hk : k * w < r) (hrt : r ≤ t) :
    ((t * kMicrosPerSecond + U64 - (1 + k * (kMicrosPerSecond * w))) % U64)
      / (kMicrosPerSecond * w) = (t - 1) / w - k := by
  have h2 : k * (kMicrosPerSecond * w) = kMicrosPerSecond * (k * w) := by ring
  rw [h2]
  have h3 : (t * kMicrosPerSecond + U64 - (1 + kMicrosPerSecond * (k * w))) % U64
      = (t - 1 - w * k) * kMicrosPerSecond + 999999 := by
    have hc : w * k = k * w := Nat.mul_comm w k
    rw [hc]
    obtain ⟨d, hd⟩ : ∃ d, t = k * w + 1 + d := ⟨t - (k * w + 1), by omega⟩
    have e1 : t - 1 - k * w = d := by omega
    rw [e1]
    have e2 : t * kMicrosPerSecond + U64 - (1 + kMicrosPerSecond * (k * w))
        = d * kMicrosPerSecond + 999999 + U64 := by
      rw [hd]
      simp only [kMicrosPerSecond]
      omega
    rw [e2, Nat.add_mod_right]
    apply Nat.mod_eq_of_lt
    rw [hd] at ht
    simp only [kMicrosPerSecond] at ht ⊢
    omega
  rw [h3, ← Nat.div_div_eq_div_mul]
  have h4 : ((t - 1 - w * k) * kMicrosPerSecond + 999999) / kMicrosPerSecond = t - 1 - w * k := by
    simp only [kMicrosPerSecond]
    omega
  rw [h4]
  exact Nat.sub_mul_div (t - 1) w k (by rw [Nat.mul_comm]; omega)

/-- Closed form of `mkGenerations` when nothing wraps: the run of
`passes` consecutive ids ending with the bucket of the instant just before
the reference time. -/
theorem mkGenerations_closed (wall w r t fuel : Nat) (hw : 0 < w)
    (hno : (r + w) * kMicrosPerSecond < U64) (ht : t * kMicrosPerSecond < U64)
    (ht0 : t ≠ 0) (hrt : r ≤ t) (hf : passes w r < fuel) :
    mkGenerations wall w r t fuel =
      Outcome.done ((Finset.range (passes w r)).image (fun k => (t - 1) / w - k)) := by
  rw [mkGenerations_eq_image wall w r t fuel hw hno hf]
  congr 1
  apply Finset.image_congr
  intro k hk
  have hk1 : k * w < r := (passes_lt_iff hw).1 (Finset.mem_range.1 (Finset.mem_coe.1 hk))
  have hnow : nowMicros wall t = t * kMicrosPerSecond := by
    simp only [nowMicros, if_neg ht0]
    exact Nat.mod_eq_of_lt ht
  simp only [hnow]
  exact pass_id_eq w r t k ht hk1 hrt

/-! ## Roll-up dependencies (C1) -/

/-- The call `mkGenerations Wf Wd (D * Wd)` in closed form: for `D ≥ 1`, a finer
window `Wf > 0` dividing `Wd` and no wrap-around it returns the `Wd / Wf`
finer buckets just below `D * (Wd / Wf)`. -/
theorem mkGenerations_rollup_eq (wall Wf Wd D fuel : Nat) (hD : 1 ≤ D)
    (hWf : 0 < Wf) (hdvd : Wf ∣ Wd) (hno : (Wd + Wf) * kMicrosPerSecond < U64)
    (ht : D * Wd * kMicrosPerSecond < U64) (hf : Wd / Wf < fuel) :
    mkGenerations wall Wf Wd (D * Wd) fuel =
      Outcome.done (Finset.Ico ((D - 1) * (Wd / Wf)) (D * (Wd / Wf))) := by
  obtain ⟨q, rfl⟩ := hdvd
  have hq : Wf * q / Wf = q := Nat.mul_div_cancel_left q hWf
  have hpass : passes Wf (Wf * q) = q := by
    unfold passes
    rw [show Wf * q + Wf - 1 = (Wf - 1) + q * Wf by
      rw [Nat.mul_comm Wf q]; omega]
    rw [Nat.add_mul_div_right _ _ hWf, Nat.div_eq_of_lt (by omega)]
    omega
  have hpred : (D - 1) * q = D * q - q := by
    rw [Nat.sub_mul, Nat.one_mul]
  rw [hq]
  rcases Nat.eq_zero_or_pos q with hq0 | hq0
  · subst hq0
    rw [mkGenerations_eq_image wall Wf (Wf * 0) (D * (Wf * 0)) fuel hWf hno
      (by rw [hpass]; simpa [hq] using hf), hpass]
    simp
  · have hle : q ≤ D * q := Nat.le_mul_of_pos_left q hD
    have hne : D * (Wf * q) ≠ 0 := by positivity
    rw [mkGenerations_closed wall Wf (Wf * q) (D * (Wf * q)) fuel hWf hno ht hne
      (Nat.le_mul_of_pos_left _ hD) (by rw [hpass]; simpa [hq] using hf), hpass]
    have hlast : (D * (Wf * q) - 1) / Wf = D * q - 1 := by
      rw [show D * (Wf * q) - 1 = (Wf - 1) + (D * q - 1) * Wf by
        have h1 : 1 ≤ D * q := by omega
        have h2 : D * (Wf * q) = (D * q - 1) * Wf + Wf := by
          rw [Nat.sub_mul, Nat.one_mul, show D * q * Wf = D * (Wf * q) by ring]
          have : Wf ≤ D * (Wf * q) := by
            calc Wf = 1 * (Wf * 1) := by ring
              _ ≤ D * (Wf * q) := Nat.mul_le_mul hD (Nat.mul_le_mul_left _ hq0)
          omega
        omega]
      rw [Nat.add_mul_div_right _ _ hWf, Nat.div_eq_of_lt (by omega)]
      omega
    rw [hlast, hpred]
    congr 1
    ext x
    simp only [Finset.mem_image, Finset.mem_range, Finset.mem_Ico]
    constructor
    · rintro ⟨k, hk, rfl⟩
      omega
    · rintro ⟨h1, h2⟩
      exact ⟨D * q - 1 - x, by omega, by omega⟩

/-- The daily roll-up of `main` contradicts its own tags: for every day
`og ≥ 1` (without wrap-around) `day_gens` holds six 4-hour buckets, and the
time range that `main` gives to the sink of each of them ends at or before
the start of the time range that `main` gives to the daily sink of `og`. -/
theorem day_gens_sinks_end_before_daily_sink (wall og fuel : Nat) (hog : 1 ≤ og)
    (hno : (og + 1) * kMicrosPerDay < U64) (hf : 6 < fuel) :
    ∃ S, day_gens wall og fuel = Outcome.done S ∧ S.card = 6 ∧
      ∀ ig ∈ S, (fourHourlySinkRange ig).2 ≤ (dailySinkRange og).1 := by
  have hday : kSecondsPerDay / (4 * kSecondsPerHour) = 6 := by decide
  have h := mkGenerations_rollup_eq wall (4 * kSecondsPerHour) kSecondsPerDay og fuel hog
    (by decide) (by decide) (by decide)
    (by simp only [kMicrosPerDay, kSecondsPerDay, kMicrosPerSecond, U64] at hno ⊢; omega)
    (by rw [hday]; exact hf)
  rw [hday] at h
  have hmod : (og * kSecondsPerDay) % U64 = og * kSecondsPerDay :=
    Nat.mod_eq_of_lt (by simp only [kMicrosPerDay, kSecondsPerDay, U64] at hno ⊢; omega)
  refine ⟨_, by simpa [day_gens, hmod] using h, ?_, ?_⟩
  · rw [Nat.card_Ico]
    have : (og - 1) * 6 = og * 6 - 6 := by omega
    omega
  · intro ig hig
    rw [Finset.mem_Ico] at hig
    have h1 : ((ig + 1) * kMicrosPerHour * 4) % U64 = (ig + 1) * kMicrosPerHour * 4 :=
      Nat.mod_eq_of_lt (by
        simp only [kMicrosPerDay, kMicrosPerHour, U64] at hno ⊢; omega)
    have h2 : (og * kMicrosPerDay) % U64 = og * kMicrosPerDay :=
      Nat.mod_eq_of_lt (by simp only [kMicrosPerDay, U64] at hno ⊢; omega)
    simp only [fourHourlySinkRange, dailySinkRange, h1, h2]
    simp only [kMicrosPerHour, kMicrosPerDay]
    omega

/-- C1: what the code derives as the finer dependency set of the coarse bucket
`D`. For `D ≥ 1`, a finer window `Wf > 0` dividing `Wd` and no wrap-around,
`mkGenerations Wf Wd (D * Wd)` ends and returns the `Wd / Wf` finer buckets
`(D - 1) * (Wd / Wf), ..., D * (Wd / Wf) - 1`: the buckets of the interval
that ends where `D` starts, none of which is among the buckets
`D * Wd / Wf, ..., D * Wd / Wf + Wd / Wf - 1` that lie inside `D`. -/
theorem rollup_dependencies_precede_bucket (wall Wf Wd D fuel : Nat) (hD : 1 ≤ D)
    (hWf : 0 < Wf) (hdvd : Wf ∣ Wd) (hno : (Wd + Wf) * kMicrosPerSecond < U64)
    (ht : D * Wd * kMicrosPerSecond < U64) (hf : Wd / Wf < fuel) :
    mkGenerations wall Wf Wd (D * Wd) fuel =
        Outcome.done (Finset.Ico ((D - 1) * (Wd / Wf)) (D * (Wd / Wf))) ∧
      Disjoint (Finset.Ico ((D - 1) * (Wd / Wf)) (D * (Wd / Wf)))
        (Finset.Ico (D * Wd / Wf) (D * Wd / Wf + Wd / Wf)) := by
  refine ⟨mkGenerations_rollup_eq wall Wf Wd D fuel hD hWf hdvd hno ht hf, ?_⟩
  obtain ⟨q, rfl⟩ := hdvd
  have hq : Wf * q / Wf = q := Nat.mul_div_cancel_left q hWf
  have hDq : D * (Wf * q) / Wf = D * q := by
    rw [show D * (Wf * q) = Wf * (D * q) by ring]
    exact Nat.mul_div_cancel_left _ hWf
  rw [hq, hDq, Finset.disjoint_left]
  intro x hx hx2
  rw [Finset.mem_Ico] at hx hx2
  omega

/-- Witness of `rollup_dependencies_precede_bucket` at the constants of `main`: the
daily roll-up of day 16801 reads the six 4-hour buckets 100800..100805 of
day 16800, not the buckets 100806..100811 of its own day. -/
theorem rollup_dependencies_precede_bucket_witness :
    mkGenerations 0 (4 * kSecondsPerHour) (1 * kSecondsPerDay) (16801 * kSecondsPerDay) 7 =
        Outcome.done (Finset.Ico 100800 100806) ∧
      Disjoint (Finset.Ico 100800 100806) (Finset.Ico 100806 100812) :=
  rollup_dependencies_precede_bucket 0 (4 * kSecondsPerHour) (1 * kSecondsPerDay) 16801 7
    (by decide) (by decide) (by decide) (by decide) (by decide) (by decide)

/-! ## Membership and size (C2, C3) -/

/-- C2, as stated, fails. With window 10, range 11 and reference time 100 the
code returns `{8, 9}`, and 8 is `(100 - k) / 10` for no `1 ≤ k < 11`. With
window 1, range 3 and reference time 1 the subtraction `now - i` wraps and
the id 18446744073709 is returned; with window 18446744073710, range 1 and
reference time 1 the window in microseconds wraps and the id 2 is returned:
neither is `(t - k) / window` for any `1 ≤ k ≤ range`. -/
theorem membership_counterexample :
    (mkGenerations 0 10 11 100 3 = Outcome.done {8, 9} ∧
      ¬ ∃ k : Nat, 1 ≤ k ∧ k < 11 ∧ (8 : Int) = ((100 : Int) - k) / 10) ∧
    (mkGenerations 0 1 3 1 4 = Outcome.done {18446744073708, 18446744073709, 0} ∧
      ¬ ∃ k : Nat, 1 ≤ k ∧ k ≤ 3 ∧ (18446744073709 : Int) = ((1 : Int) - k) / 1) ∧
    (mkGenerations 0 18446744073710 1 1 4 = Outcome.done {0, 1, 2} ∧
      ¬ ∃ k : Nat, 1 ≤ k ∧ k ≤ 1 ∧ (2 : Int) = ((1 : Int) - k) / 18446744073710) := by
  refine ⟨⟨by decide, ?_⟩, ⟨by decide, ?_⟩, ⟨by decide, ?_⟩⟩
  · rintro ⟨k, h1, h2, h3⟩
    omega
  · rintro ⟨k, h1, h2, h3⟩
    omega
  · rintro ⟨k, h1, h2, h3⟩
    omega

/-- C2, amended: for window > 0, range > 0 and a reference time `t ≥ range`
with `t * 10^6` and `(range + window) * 10^6` below `2^64`, the loop ends and
every id returned by `mkGenerations window range t` is `(t - k) / window` for
some `k` with `1 ≤ k ≤ range`. -/
theorem membership_amended (wall w r t fuel : Nat) (hw : 0 < w) (hr : 0 < r) (hrt : r ≤ t)
    (ht : t * kMicrosPerSecond < U64) (hno : (r + w) * kMicrosPerSecond < U64)
    (hf : passes w r < fuel) :
    ∃ S, mkGenerations wall w r t fuel = Outcome.done S ∧
      ∀ id ∈ S, ∃ k, 1 ≤ k ∧ k ≤ r ∧ id = (t - k) / w := by
  refine ⟨_, mkGenerations_closed wall w r t fuel hw hno ht (by omega) hrt hf, ?_⟩
  intro id hid
  rw [Finset.mem_image] at hid
  obtain ⟨j, hj, rfl⟩ := hid
  have hjw : j * w < r := (passes_lt_iff hw).1 (Finset.mem_range.1 hj)
  refine ⟨1 + w * j, by omega, by rw [Nat.mul_comm]; omega, ?_⟩
  rw [show t - (1 + w * j) = t - 1 - w * j by omega]
  exact (Nat.sub_mul_div (t - 1) w j (by rw [Nat.mul_comm]; omega)).symm

/-- Witness of `membership_amended`: window 10, range 11, reference time 100. -/
theorem membership_amended_witness :
    ∃ S, mkGenerations 0 10 11 100 3 = Outcome.done S ∧
      ∀ id ∈ S, ∃ k, 1 ≤ k ∧ k ≤ 11 ∧ id = (100 - k) / 10 :=
  membership_amended 0 10 11 100 3 (by decide) (by decide) (by decide) (by decide)
    (by decide) (by decide)

/-- C3, as stated, fails. With window 10, range 11 and reference time 100 the
code returns the two ids `{8, 9}` while `ceil ((11 - 1) / 10) = 1`; with
window 18446744073710 and range 1 the window in microseconds wraps and three
ids are returned while `ceil (1 / 18446744073710) = 1`. -/
theorem size_bound_counterexample :
    (mkGenerations 0 10 11 100 3 = Outcome.done {8, 9} ∧
      (11 - 1 + 10 - 1) / 10 = 1 ∧ ¬ ({8, 9} : Finset Nat).card ≤ 1) ∧
    (mkGenerations 0 18446744073710 1 1 4 = Outcome.done {0, 1, 2} ∧
      (1 + 18446744073710 - 1) / 18446744073710 = 1 ∧
      ¬ ({0, 1, 2} : Finset Nat).card ≤ 1) := by
  refine ⟨⟨by decide, by decide, by decide⟩, ⟨by decide, by decide, by decide⟩⟩

/-- C3, amended: for window > 0 and `(range + window) * 10^6` below `2^64`, for
every reference time (and every wall clock) the loop ends and the number of
ids returned by `mkGenerations window range t` is at most
`ceil (range / window)`. -/
theorem size_bound_amended (wall w r t fuel : Nat) (hw : 0 < w)
    (hno : (r + w) * kMicrosPerSecond < U64) (hf : passes w r < fuel) :
    ∃ S, mkGenerations wall w r t fuel = Outcome.done S ∧
      S.card ≤ (r + w - 1) / w := by
  refine ⟨_, mkGenerations_eq_image wall w r t fuel hw hno hf, ?_⟩
  refine le_trans Finset.card_image_le ?_
  rw [Finset.card_range]
  exact le_of_eq rfl

/-- Witness of `size_bound_amended`: window 10, range 11, reference time 100. -/
theorem size_bound_amended_witness :
    ∃ S, mkGenerations 0 10 11 100 3 = Outcome.done S ∧ S.card ≤ (11 + 10 - 1) / 10 :=
  size_bound_amended 0 10 11 100 3 (by decide) (by decide) (by decide)

/-! ## Small ranges (C4) -/

/-- C4, as stated, fails. Window 18446744073710 is positive and range 1 is
below it, yet `window * 10^6` wraps to 448384 microseconds and the code
returns the three ids `{0, 1, 2}`. With window 1, range 1 and reference time
18446744073710 it is `t * 10^6` that wraps: the code returns bucket 0, and
the bucket of the instant just before `t` is 18446744073709. -/
theorem small_range_counterexample :
    ((1 : Nat) ≤ 18446744073710 ∧ 18446744073710 < U64 ∧
      mkGenerations 0 18446744073710 1 1 4 = Outcome.done {0, 1, 2} ∧
      ¬ ({0, 1, 2} : Finset Nat).card ≤ 1) ∧
    ((1 : Nat) ≤ 1 ∧ 18446744073710 ≠ 0 ∧
      mkGenerations 0 1 1 18446744073710 2 = Outcome.done {0} ∧
      (18446744073710 * kMicrosPerSecond - 1) / (1 * kMicrosPerSecond) = 18446744073709 ∧
      ({0} : Finset Nat) ≠ {18446744073709}) := by
  refine ⟨⟨by decide, by decide, by decide, by decide⟩,
    ⟨by decide, by decide, by decide, by decide, by decide⟩⟩

/-- C4, amended: for window > 0 with `window * 10^6` below `2^64`, range ≤ window
and a non-zero reference time `t` with `t * 10^6` below `2^64`, the loop ends
and `mkGenerations window range t` holds at most one id; it is empty when
range is 0, and for range 1 (in fact for every range from 1 to window) it
is exactly the bucket containing the instant just before `t`, one microsecond
earlier, which is bucket `(t - 1) / window`. -/
theorem small_range_amended (wall w r t fuel : Nat) (hw : 0 < w)
    (hwno : w * kMicrosPerSecond < U64) (hrw : r ≤ w) (ht0 : t ≠ 0)
    (ht : t * kMicrosPerSecond < U64) (hf : 2 ≤ fuel) :
    ∃ S, mkGenerations wall w r t fuel = Outcome.done S ∧ S.card ≤ 1 ∧
      (r = 0 → S = ∅) ∧
      (1 ≤ r → S = {(t * kMicrosPerSecond - 1) / (w * kMicrosPerSecond)}) ∧
      (t * kMicrosPerSecond - 1) / (w * kMicrosPerSecond) = (t - 1) / w := by
  obtain ⟨f, rfl⟩ : ∃ f, fuel = f + 2 := ⟨fuel - 2, by omega⟩
  have hid : (t * kMicrosPerSecond - 1) / (w * kMicrosPerSecond) = (t - 1) / w := by
    have h := pass_id_eq w t t 0 ht (by omega) (le_refl t)
    have e : (t * kMicrosPerSecond + U64 - (1 + 0 * (kMicrosPerSecond * w))) % U64
        = t * kMicrosPerSecond - 1 := by
      rw [Nat.zero_mul, Nat.add_zero,
        show t * kMicrosPerSecond + U64 - 1 = t * kMicrosPerSecond - 1 + U64 by
          simp only [kMicrosPerSecond]; omega,
        Nat.add_mod_right]
      exact Nat.mod_eq_of_lt (by omega)
    rw [e, Nat.sub_zero, Nat.mul_comm kMicrosPerSecond w] at h
    exact h
  rcases Nat.eq_zero_or_pos r with hr0 | hr0
  · subst hr0
    refine ⟨∅, ?_, by simp, fun _ => rfl, fun h => absurd h (by omega), hid⟩
    simp [mkGenerations, mkGenerationsLoop]
  · refine ⟨{(t * kMicrosPerSecond - 1) / (w * kMicrosPerSecond)}, ?_, by simp,
      fun h => absurd h (by omega), fun _ => rfl, hid⟩
    have hgw : (kMicrosPerSecond * w) % U64 = kMicrosPerSecond * w :=
      Nat.mod_eq_of_lt (by rw [Nat.mul_comm]; exact hwno)
    have hbd : (kMicrosPerSecond * r) % U64 = kMicrosPerSecond * r :=
      Nat.mod_eq_of_lt (by simp only [kMicrosPerSecond] at hwno ⊢; omega)
    have hnow : (t * kMicrosPerSecond) % U64 = t * kMicrosPerSecond := Nat.mod_eq_of_lt ht
    have h1 : 1 < kMicrosPerSecond * r := by simp only [kMicrosPerSecond]; omega
    have hne : kMicrosPerSecond * w ≠ 0 := by simp only [kMicrosPerSecond]; omega
    have hnext : (1 + kMicrosPerSecond * w) % U64 = 1 + kMicrosPerSecond * w :=
      Nat.mod_eq_of_lt (by simp only [kMicrosPerSecond, U64] at hwno ⊢; omega)
    have hstop : ¬ 1 + kMicrosPerSecond * w < kMicrosPerSecond * r := by
      simp only [kMicrosPerSecond]; omega
    have hsub : (t * kMicrosPerSecond + U64 - 1) % U64 = t * kMicrosPerSecond - 1 := by
      rw [show t * kMicrosPerSecond + U64 - 1 = t * kMicrosPerSecond - 1 + U64 by
          simp only [kMicrosPerSecond]; omega,
        Nat.add_mod_right]
      exact Nat.mod_eq_of_lt (by omega)
    simp only [mkGenerations, if_neg ht0, hgw, hbd, hnow, mkGenerationsLoop, if_pos h1,
      if_neg hne, hnext, if_neg hstop, hsub, Nat.mul_comm w kMicrosPerSecond]
    rfl

/-- Witness of `small_range_amended`: window 4 hours, range 1 second, reference
time 1451610000. -/
theorem small_range_amended_witness :
    ∃ S, mkGenerations 0 14400 1 1451610000 2 = Outcome.done S ∧ S.card ≤ 1 ∧
      (1 = 0 → S = ∅) ∧
      (1 ≤ 1 → S = {(1451610000 * kMicrosPerSecond - 1) / (14400 * kMicrosPerSecond)}) ∧
      (1451610000 * kMicrosPerSecond - 1) / (14400 * kMicrosPerSecond)
        = (1451610000 - 1) / 14400 :=
  small_range_amended 0 14400 1 1451610000 2 (by decide) (by decide) (by decide)
    (by decide) (by decide) (by decide)

/-! ## Closed buckets (C10) -/

/-- C10, as stated, fails. With window 4 hours, range 1 day and reference time
`T = 1451610000` (01:00 on day 16801) the code returns the buckets
100801..100806, and bucket 100806 is `[1451606400, 1451620800)`: it does not
end at or before `T`, it is the bucket that contains `T`. -/
theorem closed_buckets_counterexample :
    mkGenerations 0 (4 * kSecondsPerHour) (1 * kSecondsPerDay) 1451610000 7 =
        Outcome.done {100801, 100802, 100803, 100804, 100805, 100806} ∧
      ¬ (100806 + 1) * (4 * kSecondsPerHour) ≤ 1451610000 ∧
      1451610000 / (4 * kSecondsPerHour) = 100806 := by
  refine ⟨by decide, by decide, by decide⟩

/-- C10, amended. First part: for window > 0, range > 0 and a reference time
`T ≥ range` with `T * 10^6` and `(range + window) * 10^6` below `2^64`, the
loop ends and every bucket id `g` returned denotes an interval that starts
before `T` (`g * window < T`); the interval ends at or before `T` when `T` is
a multiple of the window, and otherwise the bucket containing `T` itself is
among the ids. Second part: for window 4 hours and range 60 days, for every
reference time, at most 360 ids are returned. -/
theorem closed_buckets_amended (wall w r T fuel : Nat) :
    (0 < w → 0 < r → r ≤ T → T * kMicrosPerSecond < U64 →
      (r + w) * kMicrosPerSecond < U64 → passes w r < fuel →
      ∃ S, mkGenerations wall w r T fuel = Outcome.done S ∧
        (∀ g ∈ S, g * w < T ∧ (w ∣ T → (g + 1) * w ≤ T)) ∧
        (¬ w ∣ T → T / w ∈ S)) ∧
    (360 < fuel →
      ∃ S, mkGenerations wall (4 * kSecondsPerHour) (60 * kSecondsPerDay) T fuel
          = Outcome.done S ∧ S.card ≤ 360) := by
  constructor
  · intro hw hr hrT hT hno hf
    refine ⟨_, mkGenerations_closed wall w r T fuel hw hno hT (by omega) hrT hf, ?_, ?_⟩
    · intro g hg
      rw [Finset.mem_image] at hg
      obtain ⟨k, _, rfl⟩ := hg
      have hle : (T - 1) / w * w ≤ T - 1 := Nat.div_mul_le_self (T - 1) w
      have hmono : ((T - 1) / w - k) * w ≤ (T - 1) / w * w :=
        Nat.mul_le_mul_right w (Nat.sub_le _ _)
      refine ⟨by omega, ?_⟩
      rintro ⟨c, hc⟩
      have hc1 : 1 ≤ c := by
        rcases Nat.eq_zero_or_pos c with h0 | h0
        · subst h0; omega
        · exact h0
      have hdiv : (T - 1) / w = c - 1 := by
        rw [hc, show w * c - 1 = (w - 1) + (c - 1) * w by
          have : w * c = (c - 1) * w + w := by
            rw [Nat.sub_mul, Nat.one_mul, Nat.mul_comm c w]
            have : w ≤ w * c := Nat.le_mul_of_pos_right w hc1
            omega
          omega]
        rw [Nat.add_mul_div_right _ _ hw, Nat.div_eq_of_lt (by omega)]
        omega
      rw [hdiv, hc]
      calc (c - 1 - k + 1) * w ≤ c * w := Nat.mul_le_mul_right w (by omega)
        _ = w * c := Nat.mul_comm c w
    · intro hnd
      rw [Finset.mem_image]
      refine ⟨0, Finset.mem_range.2 ((passes_lt_iff hw).2 (by omega)), ?_⟩
      have h := Nat.succ_div (T - 1) w
      rw [show T - 1 + 1 = T by omega, if_neg hnd] at h
      show (T - 1) / w - 0 = T / w
      rw [Nat.sub_zero, h, Nat.add_zero]
  · intro hf
    have hp : passes (4 * kSecondsPerHour) (60 * kSecondsPerDay) = 360 := by decide
    refine ⟨_, mkGenerations_eq_image wall _ _ T fuel (by decide) (by decide)
      (by rw [hp]; exact hf), ?_⟩
    refine le_trans Finset.card_image_le ?_
    rw [Finset.card_range, hp]

/-- Witness of `closed_buckets_amended`: window 4 hours, reference time 1451610000
with range 1 day for the first part and range 60 days for the second. -/
theorem closed_buckets_amended_witness :
    (∃ S, mkGenerations 0 14400 86400 1451610000 7 = Outcome.done S ∧
        (∀ g ∈ S, g * 14400 < 1451610000 ∧
          (14400 ∣ 1451610000 → (g + 1) * 14400 ≤ 1451610000)) ∧
        (¬ 14400 ∣ 1451610000 → 1451610000 / 14400 ∈ S)) ∧
    (∃ S, mkGenerations 0 (4 * kSecondsPerHour) (60 * kSecondsPerDay) 1451610000 361
        = Outcome.done S ∧ S.card ≤ 360) :=
  ⟨(closed_buckets_amended 0 14400 86400 1451610000 7).1 (by decide) (by decide)
      (by decide) (by decide) (by decide) (by decide),
    (closed_buckets_amended 0 14400 86400 1451610000 361).2 (by decide)⟩

end CmReportBuild

namespace zbase

/-! ## Replica failover (C5, C6) -/

/-- The failover loop stops at the first host that returns: hosts before it
that throw a `StandardException` are tried in order, hosts after it are not. -/
theorem executeLoop_first_success (remote : ReplicaRef → RemoteOutcome) :
    ∀ (pre : List ReplicaRef) (h : ReplicaRef) (post : List ReplicaRef)
      (r : Option MapReduceShardResult) (errors : List String) (attempts : List ReplicaRef),
      (∀ x ∈ pre, ∃ e, remote x = RemoteOutcome.standardException e) →
      remote h = RemoteOutcome.returned r →
      executeLoop remote (pre ++ h :: post) errors attempts =
        { attempts := attempts ++ pre ++ [h], result := ExecuteResult.returned r } := by
  intro pre
  induction pre with
  | nil =>
    intro h post r errors attempts _ hr
    simp [executeLoop, hr]
  | cons a pre ih =>
    intro h post r errors attempts hpre hr
    obtain ⟨e, he⟩ := hpre a (List.mem_cons_self a pre)
    have hrest : ∀ x ∈ pre, ∃ e, remote x = RemoteOutcome.standardException e :=
      fun x hx => hpre x (List.mem_cons_of_mem a hx)
    rw [List.cons_append, executeLoop, he]
    show executeLoop remote (pre ++ h :: post) (errors ++ [e]) (attempts ++ [a]) = _
    rw [ih h post r (errors ++ [e]) (attempts ++ [a]) hrest hr]
    simp

/-- When every host throws a `StandardException`, the loop tries all of them in
order and raises the aggregated error. -/
theorem executeLoop_all_fail (remote : ReplicaRef → RemoteOutcome) (whats : ReplicaRef → String) :
    ∀ (hosts : List ReplicaRef) (errors : List String) (attempts : List ReplicaRef),
      (∀ x ∈ hosts, remote x = RemoteOutcome.standardException (whats x)) →
      executeLoop remote hosts errors attempts =
        { attempts := attempts ++ hosts,
          result := ExecuteResult.raisedRuntimeError
            (executeFailedMessage (StringUtil.join (errors ++ hosts.map whats) ", ")) } := by
  intro hosts
  induction hosts with
  | nil =>
    intro errors attempts _
    simp [executeLoop]
  | cons a hosts ih =>
    intro errors attempts hall
    have ha := hall a (List.mem_cons_self a hosts)
    have hrest : ∀ x ∈ hosts, remote x = RemoteOutcome.standardException (whats x) :=
      fun x hx => hall x (List.mem_cons_of_mem a hx)
    rw [executeLoop, ha]
    show executeLoop remote hosts (errors ++ [whats a]) (attempts ++ [a]) = _
    rw [ih (errors ++ [whats a]) (attempts ++ [a]) hrest]
    simp

/-- If every host either returns or throws a `StandardException` and some host
returns, the list splits at the first host that returns. -/
theorem exists_first_success (remote : ReplicaRef → RemoteOutcome) :
    ∀ hosts : List ReplicaRef,
      (∀ x ∈ hosts, (∃ r, remote x = RemoteOutcome.returned r) ∨
        (∃ e, remote x = RemoteOutcome.standardException e)) →
      (∃ x ∈ hosts, ∃ r, remote x = RemoteOutcome.returned r) →
      ∃ pre h post r, hosts = pre ++ h :: post ∧
        (∀ x ∈ pre, ∃ e, remote x = RemoteOutcome.standardException e) ∧
        remote h = RemoteOutcome.returned r := by
  intro hosts
  induction hosts with
  | nil =>
    rintro _ ⟨x, hx, _⟩
    simp at hx
  | cons a hosts ih =>
    intro hall hsucc
    rcases hall a (List.mem_cons_self a hosts) with ⟨r, hr⟩ | ⟨e, he⟩
    · exact ⟨[], a, hosts, r, rfl, by simp, hr⟩
    · have hsucc2 : ∃ x ∈ hosts, ∃ r, remote x = RemoteOutcome.returned r := by
        obtain ⟨x, hx, r, hr⟩ := hsucc
        rcases List.mem_cons.1 hx with rfl | hx2
        · rw [he] at hr
          cases hr
        · exact ⟨x, hx2, r, hr⟩
      obtain ⟨pre, h, post, r, hsplit, hpre, hr⟩ :=
        ih (fun x hx => hall x (List.mem_cons_of_mem a hx)) hsucc2
      refine ⟨a :: pre, h, post, r, by rw [hsplit]; rfl, ?_, hr⟩
      intro x hx
      rcases List.mem_cons.1 hx with rfl | hx2
      · exact ⟨e, he⟩
      · exact hpre x hx2

/-- Every element of a list is a substring of the list joined with a separator
(stated for the accumulator loop of `String.intercalate`). -/
theorem intercalate_go_contains (sep : String) :
    ∀ (l : List String) (acc : String),
      ∃ tail, String.intercalate.go acc sep l = acc ++ tail ∧
        ∀ e ∈ l, ∃ a b, tail = a ++ e ++ b := by
  intro l
  induction l with
  | nil =>
    intro acc
    exact ⟨"", by simp [String.intercalate.go], by simp⟩
  | cons x xs ih =>
    intro acc
    obtain ⟨tail, htail, hmem⟩ := ih (acc ++ sep ++ x)
    refine ⟨sep ++ x ++ tail, ?_, ?_⟩
    · rw [String.intercalate.go, htail]
      simp [String.append_assoc]
    · intro e he
      rcases List.mem_cons.1 he with rfl | he2
      · exact ⟨sep, tail, rfl⟩
      · obtain ⟨a, b, hab⟩ := hmem e he2
        exact ⟨sep ++ x ++ a, b, by rw [hab]; simp [String.append_assoc]⟩

/-- Every element of a list is a substring of the joined list. -/
theorem join_contains (sep : String) (l : List String) (e : String) (he : e ∈ l) :
    ∃ a b, StringUtil.join l sep = a ++ e ++ b := by
  cases l with
  | nil => simp at he
  | cons x xs =>
    obtain ⟨tail, htail, hmem⟩ := intercalate_go_contains sep xs x
    have hj : StringUtil.join (x :: xs) sep = x ++ tail := by
      simp only [StringUtil.join, String.intercalate]
      exact htail
    rcases List.mem_cons.1 he with rfl | he2
    · exact ⟨"", tail, by rw [hj]; simp⟩
    · obtain ⟨a, b, hab⟩ := hmem e he2
      exact ⟨x ++ a, b, by rw [hj, hab]; simp [String.append_assoc]⟩

/-- C5: if every replica either returns or throws a `StandardException` and at
least one returns, then the replica list splits as `pre ++ h :: post` where
`h` is the first replica that returns: `execute` returns the result of `h`
(so the aggregated error is not raised, although every replica of `pre`
failed) and the replicas it called are exactly `pre ++ [h]`, none of `post`. -/
theorem execute_returns_first_success (self : SaveToTablePartitionTask)
    (executeRemote : MapReduceTaskShard → MapReduceScheduler → List String →
      ReplicaRef → RemoteOutcome)
    (shard : MapReduceTaskShard) (job : MapReduceScheduler)
    (hout : ∀ x ∈ self.repl_.replicasFor self.partition_key_,
      (∃ r, executeRemote shard job (inputTables shard job) x = RemoteOutcome.returned r) ∨
      (∃ e, executeRemote shard job (inputTables shard job) x
        = RemoteOutcome.standardException e))
    (hsucc : ∃ x ∈ self.repl_.replicasFor self.partition_key_,
      ∃ r, executeRemote shard job (inputTables shard job) x = RemoteOutcome.returned r) :
    ∃ pre h post r, self.repl_.replicasFor self.partition_key_ = pre ++ h :: post ∧
      (∀ x ∈ pre, ∃ e, executeRemote shard job (inputTables shard job) x
        = RemoteOutcome.standardException e) ∧
      executeRemote shard job (inputTables shard job) h = RemoteOutcome.returned r ∧
      self.execute executeRemote shard job =
        { attempts := pre ++ [h], result := ExecuteResult.returned r } := by
  obtain ⟨pre, h, post, r, hsplit, hpre, hr⟩ :=
    exists_first_success (executeRemote shard job (inputTables shard job)) _ hout hsucc
  refine ⟨pre, h, post, r, hsplit, hpre, hr, ?_⟩
  unfold SaveToTablePartitionTask.execute
  simp only [hsplit]
  rw [executeLoop_first_success _ pre h post r [] [] hpre hr]
  simp

/-- Witness of `execute_returns_first_success`: replicas `[h1, h2, h3]` where `h1` and
`h2` fail and `h3` returns. -/
theorem execute_returns_first_success_witness :
    ∃ pre h post r, [sampleHost 1, sampleHost 2, sampleHost 3] = pre ++ h :: post ∧
      (∀ x ∈ pre, ∃ e, sampleRemote sampleShard sampleJob (inputTables sampleShard sampleJob) x
        = RemoteOutcome.standardException e) ∧
      sampleRemote sampleShard sampleJob (inputTables sampleShard sampleJob) h
        = RemoteOutcome.returned r ∧
      sampleTask.execute sampleRemote sampleShard sampleJob =
        { attempts := pre ++ [h], result := ExecuteResult.returned r } :=
  execute_returns_first_success sampleTask sampleRemote sampleShard sampleJob
    (by
      intro x hx
      by_cases h3 : x = sampleHost 3
      · exact Or.inl ⟨_, if_pos h3⟩
      · exact Or.inr ⟨_, if_neg h3⟩)
    ⟨sampleHost 3, List.mem_cons_of_mem _ (List.mem_cons_of_mem _ (List.mem_cons_self _ _)),
      _, if_pos rfl⟩

/-- C6: if every replica of the list throws a `StandardException` (with
description `whats x` for replica `x`), then `execute` calls every replica
exactly once in list order, returns no result and raises one runtime error
whose message is `"SaveToTablePartitionTask::execute failed: "` followed by
the descriptions in replica order joined by `", "`; every description is a
substring of that message. This holds for the empty list as well. -/
theorem execute_raises_when_exhausted (self : SaveToTablePartitionTask)
    (executeRemote : MapReduceTaskShard → MapReduceScheduler → List String →
      ReplicaRef → RemoteOutcome)
    (shard : MapReduceTaskShard) (job : MapReduceScheduler) (whats : ReplicaRef → String)
    (hfail : ∀ x ∈ self.repl_.replicasFor self.partition_key_,
      executeRemote shard job (inputTables shard job) x
        = RemoteOutcome.standardException (whats x)) :
    self.execute executeRemote shard job =
        { attempts := self.repl_.replicasFor self.partition_key_,
          result := ExecuteResult.raisedRuntimeError
            ("SaveToTablePartitionTask::execute failed: " ++
              ", ".intercalate ((self.repl_.replicasFor self.partition_key_).map whats)) } ∧
      ∀ x ∈ self.repl_.replicasFor self.partition_key_, ∃ a b,
        "SaveToTablePartitionTask::execute failed: " ++
            ", ".intercalate ((self.repl_.replicasFor self.partition_key_).map whats)
          = a ++ whats x ++ b := by
  constructor
  · unfold SaveToTablePartitionTask.execute
    simp only []
    rw [executeLoop_all_fail _ whats _ [] [] hfail]
    simp [executeFailedMessage, StringUtil.join]
  · intro x hx
    obtain ⟨a, b, hab⟩ := join_contains ", "
      ((self.repl_.replicasFor self.partition_key_).map whats) (whats x)
      (List.mem_map_of_mem whats hx)
    refine ⟨"SaveToTablePartitionTask::execute failed: " ++ a, b, ?_⟩
    rw [show ", ".intercalate ((self.repl_.replicasFor self.partition_key_).map whats)
      = a ++ whats x ++ b from hab]
    simp [String.append_assoc]

/-- Witness of `execute_raises_when_exhausted`: replicas `[h1, h2, h3]` that all fail. -/
theorem execute_raises_when_exhausted_witness :
    sampleTask.execute sampleRemoteDown sampleShard sampleJob =
        { attempts := [sampleHost 1, sampleHost 2, sampleHost 3],
          result := ExecuteResult.raisedRuntimeError
            ("SaveToTablePartitionTask::execute failed: " ++
              ", ".intercalate
                ([sampleHost 1, sampleHost 2, sampleHost 3].map
                  (fun x => x.name ++ " is down"))) } ∧
      ∀ x ∈ [sampleHost 1, sampleHost 2, sampleHost 3], ∃ a b,
        "SaveToTablePartitionTask::execute failed: " ++
            ", ".intercalate
              ([sampleHost 1, sampleHost 2, sampleHost 3].map (fun x => x.name ++ " is down"))
          = a ++ (x.name ++ " is down") ++ b :=
  execute_raises_when_exhausted sampleTask sampleRemoteDown sampleShard sampleJob
    (fun x => x.name ++ " is down") (fun _ _ => rfl)

/-! ## Resolution of the input tables (C7, C8) -/

/-- The first loop of `execute` keeps the present locations in dependency order. -/
theorem collectInputTables_eq_filterMap (job : MapReduceScheduler) (deps : List Nat) :
    collectInputTables job deps = deps.filterMap job.getResultURL := by
  induction deps with
  | nil => rfl
  | cons a deps ih =>
    rw [collectInputTables, List.filterMap_cons]
    cases h : job.getResultURL a <;> simp [ih]

/-- The resolved list is a permutation of the present locations. -/
theorem inputTables_perm (shard : MapReduceTaskShard) (job : MapReduceScheduler) :
    (inputTables shard job).Perm (shard.dependencies.filterMap job.getResultURL) := by
  unfold inputTables
  rw [collectInputTables_eq_filterMap]
  exact List.perm_insertionSort _ _

/-- The resolved list is sorted. -/
theorem inputTables_sorted (shard : MapReduceTaskShard) (job : MapReduceScheduler) :
    (inputTables shard job).Sorted (fun a b => a ≤ b) := by
  unfold inputTables
  exact List.sorted_insertionSort _ _

/-- C7: for every dependency list and every scheduler answer, `execute` hands
`inputTables shard job` to the remote call; this list is built without any
error for absent results, its length is the number of dependency entries
whose result is present, it is a permutation of the present locations, and
it is sorted in ascending lexical order. -/
theorem input_tables_resolved (self : SaveToTablePartitionTask)
    (executeRemote : MapReduceTaskShard → MapReduceScheduler → List String →
      ReplicaRef → RemoteOutcome)
    (shard : MapReduceTaskShard) (job : MapReduceScheduler) :
    self.execute executeRemote shard job =
        executeLoop (executeRemote shard job (inputTables shard job))
          (self.repl_.replicasFor self.partition_key_) [] [] ∧
      (inputTables shard job).length =
        shard.dependencies.countP (fun input => (job.getResultURL input).isSome) ∧
      (inputTables shard job).Perm (shard.dependencies.filterMap job.getResultURL) ∧
      (inputTables shard job).Sorted (fun a b => a ≤ b) := by
  refine ⟨rfl, ?_, inputTables_perm shard job, inputTables_sorted shard job⟩
  rw [(inputTables_perm shard job).length_eq]
  generalize shard.dependencies = deps
  induction deps with
  | nil => rfl
  | cons a deps ih =>
    rw [List.filterMap_cons, List.countP_cons]
    cases h : job.getResultURL a <;> simp [ih]

/-- C8: for a fixed scheduler answer, two shards whose dependency lists are
permutations of each other resolve to the same `input_tables` list. -/
theorem input_tables_order_independent (job : MapReduceScheduler)
    (shard₁ shard₂ : MapReduceTaskShard)
    (hperm : shard₁.dependencies.Perm shard₂.dependencies) :
    inputTables shard₁ job = inputTables shard₂ job :=
  List.eq_of_perm_of_sorted
    ((inputTables_perm shard₁ job).trans
      ((hperm.filterMap job.getResultURL).trans (inputTables_perm shard₂ job).symm))
    (inputTables_sorted shard₁ job) (inputTables_sorted shard₂ job)

/-- Witness of `input_tables_order_independent`: dependencies `[0, 1, 2]` and `[2, 0, 1]`. -/
theorem input_tables_order_independent_witness :
    inputTables { task := 7, dependencies := [0, 1, 2] } sampleJob =
      inputTables { task := 7, dependencies := [2, 0, 1] } sampleJob :=
  input_tables_order_independent sampleJob { task := 7, dependencies := [0, 1, 2] }
    { task := 7, dependencies := [2, 0, 1] }
    (((List.Perm.swap 2 1 []).cons 0).trans (List.Perm.swap 2 0 [1]))

/-! ## Shard creation (C9) -/

/-- The collecting loop of the constructor holds what it started with and the
shard indices of the sources. -/
theorem mem_collectInput (idx : Nat) :
    ∀ (sources : List MapReduceTask) (input : List Nat),
      idx ∈ collectInput input sources ↔
        idx ∈ input ∨ ∃ src ∈ sources, idx ∈ src.shards := by
  intro sources
  induction sources with
  | nil => intro input; simp [collectInput]
  | cons a sources ih =>
    intro input
    rw [collectInput, ih (input ++ a.shards)]
    simp only [List.mem_append, List.mem_cons, exists_eq_or_imp]
    tauto

/-- C9: the constructor appends exactly one shard to the job's shard list; the
shard is owned by the task under construction, its index is the only entry
of the task's own shard set, and a shard index occurs in its dependency list
if and only if some upstream task in `sources` exposes it. -/
theorem constructor_registers_one_shard (self : TaskRef) (table_name : String)
    (partition_key : SHA1Hash) (sources : List MapReduceTask)
    (shards : MapReduceShardList) (repl : ReplicationScheme) :
    ∃ shard,
      (SaveToTablePartitionTask.new self table_name partition_key sources shards repl).2
        = shards ++ [shard] ∧
      shard.task = self ∧
      (SaveToTablePartitionTask.new self table_name partition_key sources shards repl).1.shards
        = [shards.length] ∧
      ∀ idx, idx ∈ shard.dependencies ↔ ∃ src ∈ sources, idx ∈ src.shards := by
  refine ⟨{ task := self, dependencies := collectInput [] sources }, rfl, rfl, rfl, ?_⟩
  intro idx
  rw [mem_collectInput idx sources []]
  simp

/-! ## The sample run, evaluated -/

/-- Dependencies `[0, 1, 2]` with the result of shard 1 absent resolve to a
sorted list of length 2. -/
theorem sample_input_tables : inputTables sampleShard sampleJob = ["a.sst", "c.sst"] := by
  simp [inputTables, collectInputTables, sampleShard, sampleJob, List.insertionSort,
    List.orderedInsert]
  decide

/-- With `h1` and `h2` failing and `h3` returning, `execute` returns the result
of `h3` after calling the three replicas in order. -/
theorem sample_failover_run :
    sampleTask.execute sampleRemote sampleShard sampleJob =
      { attempts := [sampleHost 1, sampleHost 2, sampleHost 3],
        result := ExecuteResult.returned
          (some { host := sampleHost 3, location := "out.sst" }) } := by
  decide

/-- With all three replicas failing, `execute` raises the aggregated error. -/
theorem sample_exhausted_run :
    sampleTask.execute sampleRemoteDown sampleShard sampleJob =
      { attempts := [sampleHost 1, sampleHost 2, sampleHost 3],
        result := ExecuteResult.raisedRuntimeError
          "SaveToTablePartitionTask::execute failed: h1 is down, h2 is down, h3 is down" } := by
  decide

end zbase

namespace CmReportBuild

/-! ## Determinism (C11) -/

/-- C11: with an explicit non-zero reference time the result of `mkGenerations`
is the same for any two wall-clock values (and for any fuel the outcome,
set or not, is the same); the wall clock enters the computation only
through the branch taken when the reference time is zero. -/
theorem explicit_reference_ignores_wall_clock (wall₁ wall₂ w r t fuel : Nat) (ht : t ≠ 0) :
    mkGenerations wall₁ w r t fuel = mkGenerations wall₂ w r t fuel := by
  simp only [mkGenerations, if_neg ht]

/-- Witness of `explicit_reference_ignores_wall_clock`: window 10, range 11, reference
time 100 and two different wall clocks; the common result is `{8, 9}`. -/
theorem explicit_reference_ignores_wall_clock_witness :
    mkGenerations 0 10 11 100 3 = mkGenerations 1451610000000000 10 11 100 3 ∧
      mkGenerations 1451610000000000 10 11 100 3 = Outcome.done {8, 9} :=
  ⟨explicit_reference_ignores_wall_clock 0 1451610000000000 10 11 100 3 (by decide), by decide⟩

/-- With reference time zero the wall clock does decide the result. -/
theorem zero_reference_reads_wall_clock :
    mkGenerations 100000000 10 11 0 3 = Outcome.done {8, 9} ∧
      mkGenerations 200000000 10 11 0 3 = Outcome.done {18, 19} := by
  refine ⟨by decide, by decide⟩

/-! ## Monotonicity and closed form (C12, C13) -/

/-- The closed form is a set of `passes` distinct ids. -/
theorem card_closed_form (w r t : Nat) (hw : 0 < w) (hrt : r ≤ t) :
    ((Finset.range (passes w r)).image (fun k => (t - 1) / w - k)).card = passes w r := by
  rw [Finset.card_image_of_injOn, Finset.card_range]
  intro a ha b hb hab
  have ha1 : a * w < r := (passes_lt_iff hw).1 (Finset.mem_range.1 (Finset.mem_coe.1 ha))
  have hb1 : b * w < r := (passes_lt_iff hw).1 (Finset.mem_range.1 (Finset.mem_coe.1 hb))
  have hale : a ≤ (t - 1) / w := (Nat.le_div_iff_mul_le hw).2 (by omega)
  have hble : b ≤ (t - 1) / w := (Nat.le_div_iff_mul_le hw).2 (by omega)
  simp only at hab
  omega

/-- C12, amended: for window > 0, range > 0 and reference times `range ≤ t1 ≤ t2`
with `t2 * 10^6` and `(range + window) * 10^6` below `2^64` (no unsigned
wrap-around), both calls end with non-empty sets, the largest id for `t1` is at most the
largest id for `t2`, and likewise for the smallest ids. -/
theorem bucket_ids_monotone (wall w r t₁ t₂ fuel : Nat) (hw : 0 < w) (hr : 0 < r)
    (hrt : r ≤ t₁) (h12 : t₁ ≤ t₂) (ht : t₂ * kMicrosPerSecond < U64)
    (hno : (r + w) * kMicrosPerSecond < U64) (hf : passes w r < fuel) :
    ∃ (S₁ S₂ : Finset Nat) (h₁ : S₁.Nonempty) (h₂ : S₂.Nonempty),
      mkGenerations wall w r t₁ fuel = Outcome.done S₁ ∧
      mkGenerations wall w r t₂ fuel = Outcome.done S₂ ∧
      S₁.max' h₁ ≤ S₂.max' h₂ ∧ S₁.min' h₁ ≤ S₂.min' h₂ := by
  have ht1 : t₁ * kMicrosPerSecond < U64 :=
    lt_of_le_of_lt (Nat.mul_le_mul_right _ h12) ht
  have hp : 0 < passes w r := (passes_lt_iff hw).2 (by omega)
  have hmono : (t₁ - 1) / w ≤ (t₂ - 1) / w := Nat.div_le_div_right (by omega)
  have hmem : ∀ t, (t - 1) / w ∈ (Finset.range (passes w r)).image (fun k => (t - 1) / w - k) :=
    fun t => Finset.mem_image.2 ⟨0, Finset.mem_range.2 hp, rfl⟩
  have hlast : ∀ t, (t - 1) / w - (passes w r - 1) ∈
      (Finset.range (passes w r)).image (fun k => (t - 1) / w - k) :=
    fun t => Finset.mem_image.2 ⟨passes w r - 1, Finset.mem_range.2 (by omega), rfl⟩
  refine ⟨_, _, ⟨_, hmem t₁⟩, ⟨_, hmem t₂⟩,
    mkGenerations_closed wall w r t₁ fuel hw hno ht1 (by omega) hrt hf,
    mkGenerations_closed wall w r t₂ fuel hw hno ht (by omega) (by omega) hf, ?_, ?_⟩
  · apply Finset.max'_le
    intro y hy
    obtain ⟨k, _, rfl⟩ := Finset.mem_image.1 hy
    exact le_trans (le_trans (Nat.sub_le _ _) hmono) (Finset.le_max' _ _ (hmem t₂))
  · refine le_trans (Finset.min'_le _ _ (hlast t₁)) ?_
    apply Finset.le_min'
    intro y hy
    obtain ⟨k, hk, rfl⟩ := Finset.mem_image.1 hy
    have := Finset.mem_range.1 hk
    omega

/-- Witness of `bucket_ids_monotone`: window 10, range 11, reference times 100 and 125. -/
theorem bucket_ids_monotone_witness :
    ∃ (S₁ S₂ : Finset Nat) (h₁ : S₁.Nonempty) (h₂ : S₂.Nonempty),
      mkGenerations 0 10 11 100 3 = Outcome.done S₁ ∧
      mkGenerations 0 10 11 125 3 = Outcome.done S₂ ∧
      S₁.max' h₁ ≤ S₂.max' h₂ ∧ S₁.min' h₁ ≤ S₂.min' h₂ :=
  bucket_ids_monotone 0 10 11 100 125 3 (by decide) (by decide) (by decide) (by decide)
    (by decide) (by decide) (by decide)

/-- C12, as stated, fails. Window 1, range 1 and the reference times
`2 ≤ 18446744073710` meet every condition of the claim (`t1 ≥ range`), yet
`t2 * 10^6` wraps: the call for `t1` returns `{1}`, the call for `t2` returns
`{0}`, and the largest (and smallest) id decreases. With window `2^58` the
window in microseconds wraps to 0 and the call returns no set at all: it
divides by zero, whatever the fuel. -/
theorem bucket_ids_monotone_counterexample :
    ((0 : Nat) < 1 ∧ (2 : Nat) ≤ 18446744073710 ∧ (1 : Nat) ≤ 2 ∧ 18446744073710 < U64 ∧
      mkGenerations 0 1 1 2 2 = Outcome.done {1} ∧
      mkGenerations 0 1 1 18446744073710 2 = Outcome.done {0} ∧
      ¬ ({1} : Finset Nat).max' (Finset.singleton_nonempty 1)
          ≤ ({0} : Finset Nat).max' (Finset.singleton_nonempty 0) ∧
      ¬ ({1} : Finset Nat).min' (Finset.singleton_nonempty 1)
          ≤ ({0} : Finset Nat).min' (Finset.singleton_nonempty 0)) ∧
    ((0 : Nat) < 288230376151711744 ∧ 288230376151711744 < U64 ∧
      ∀ fuel, mkGenerations 0 288230376151711744 1 1 (fuel + 1) = Outcome.divisionByZero) := by
  refine ⟨⟨by decide, by decide, by decide, by decide, by decide, by decide, ?_, ?_⟩,
    by decide, by decide, fun fuel => ?_⟩
  · simp
  · simp
  · rfl

/-- C13: for window `w ≥ 1`, range `r ≥ 1` and reference time `t ≥ r` with
`t * 10^6` and `(r + w) * 10^6` below `2^64`, the loop ends and the result is
exactly `{ (t - 1) / w - j : j < ceil (r / w) }`; this is the contiguous run
of `ceil (r / w)` distinct ids up to `(t - 1) / w`, which is the bucket of the
instant one microsecond before `t`. -/
theorem closed_form (wall w r t fuel : Nat) (hw : 1 ≤ w) (hr : 1 ≤ r) (hrt : r ≤ t)
    (ht : t * kMicrosPerSecond < U64) (hno : (r + w) * kMicrosPerSecond < U64)
    (hf : (r + w - 1) / w < fuel) :
    ∃ S, mkGenerations wall w r t fuel = Outcome.done S ∧
      S = (Finset.range ((r + w - 1) / w)).image (fun j => (t - 1) / w - j) ∧
      S = Finset.Icc ((t - 1) / w + 1 - (r + w - 1) / w) ((t - 1) / w) ∧
      S.card = (r + w - 1) / w ∧
      (t - 1) / w ∈ S ∧ (∀ g ∈ S, g ≤ (t - 1) / w) ∧
      (t - 1) / w = (t * kMicrosPerSecond - 1) / (w * kMicrosPerSecond) := by
  have hclosed := mkGenerations_closed wall w r t fuel hw hno ht (by omega) hrt hf
  have hp : 0 < passes w r := (passes_lt_iff hw).2 (by omega)
  have hple : passes w r - 1 ≤ (t - 1) / w := by
    apply (Nat.le_div_iff_mul_le hw).2
    have := (passes_lt_iff (k := passes w r - 1) (r := r) hw).1 (by omega)
    omega
  have hid : (t * kMicrosPerSecond - 1) / (w * kMicrosPerSecond) = (t - 1) / w := by
    have h := pass_id_eq w t t 0 ht (by omega) (le_refl t)
    have e : (t * kMicrosPerSecond + U64 - (1 + 0 * (kMicrosPerSecond * w))) % U64
        = t * kMicrosPerSecond - 1 := by
      rw [Nat.zero_mul, Nat.add_zero,
        show t * kMicrosPerSecond + U64 - 1 = t * kMicrosPerSecond - 1 + U64 by
          simp only [kMicrosPerSecond]; omega,
        Nat.add_mod_right]
      exact Nat.mod_eq_of_lt (by omega)
    rw [e, Nat.sub_zero, Nat.mul_comm kMicrosPerSecond w] at h
    exact h
  refine ⟨_, hclosed, rfl, ?_, card_closed_form w r t hw hrt, ?_, ?_, hid.symm⟩
  · ext x
    simp only [Finset.mem_image, Finset.mem_range, Finset.mem_Icc]
    change (∃ a, a < passes w r ∧ (t - 1) / w - a = x) ↔
      (t - 1) / w + 1 - passes w r ≤ x ∧ x ≤ (t - 1) / w
    constructor
    · rintro ⟨k, hk, rfl⟩
      omega
    · rintro ⟨h1, h2⟩
      exact ⟨(t - 1) / w - x, by omega, by omega⟩
  · exact Finset.mem_image.2 ⟨0, Finset.mem_range.2 hp, rfl⟩
  · intro g hg
    obtain ⟨k, _, rfl⟩ := Finset.mem_image.1 hg
    exact Nat.sub_le _ _

/-- Witness of `closed_form`: window 4 hours, range 1 day, reference time
1451610000. -/
theorem closed_form_witness :
    ∃ S, mkGenerations 0 14400 86400 1451610000 7 = Outcome.done S ∧
      S = (Finset.range ((86400 + 14400 - 1) / 14400)).image
        (fun j => (1451610000 - 1) / 14400 - j) ∧
      S = Finset.Icc ((1451610000 - 1) / 14400 + 1 - (86400 + 14400 - 1) / 14400)
        ((1451610000 - 1) / 14400) ∧
      S.card = (86400 + 14400 - 1) / 14400 ∧
      (1451610000 - 1) / 14400 ∈ S ∧ (∀ g ∈ S, g ≤ (1451610000 - 1) / 14400) ∧
      (1451610000 - 1) / 14400
        = (1451610000 * kMicrosPerSecond - 1) / (14400 * kMicrosPerSecond) :=
  closed_form 0 14400 86400 1451610000 7 (by decide) (by decide) (by decide) (by decide)
    (by decide) (by decide)

end CmReportBuild

namespace zbase

/-! ## What a failed attempt records (C15) -/

/-- Replicas that throw a `StandardException` are passed over one by one: each
adds its description, and nothing else, to `errors`, and the loop goes on
with the replicas that follow. -/
theorem executeLoop_skip_failed (remote : ReplicaRef → RemoteOutcome)
    (whats : ReplicaRef → String) :
    ∀ (pre rest : List ReplicaRef) (errors : List String) (attempts : List ReplicaRef),
      (∀ x ∈ pre, remote x = RemoteOutcome.standardException (whats x)) →
      executeLoop remote (pre ++ rest) errors attempts =
        executeLoop remote rest (errors ++ pre.map whats) (attempts ++ pre) := by
  intro pre
  induction pre with
  | nil =>
    intro rest errors attempts _
    simp
  | cons a pre ih =>
    intro rest errors attempts hall
    have ha := hall a (List.mem_cons_self a pre)
    have hrest : ∀ x ∈ pre, remote x = RemoteOutcome.standardException (whats x) :=
      fun x hx => hall x (List.mem_cons_of_mem a hx)
    rw [List.cons_append, executeLoop, ha]
    show executeLoop remote (pre ++ rest) (errors ++ [whats a]) (attempts ++ [a]) = _
    rw [ih rest (errors ++ [whats a]) (attempts ++ [a]) hrest]
    simp

/-- C15, as stated, fails: the record of a failed attempt carries no host. When
the replicas `h1, h2` fail with the same description, the aggregated message is the
same as when the replicas `h3, h4` fail with it, and it is made of the
descriptions alone. -/
theorem error_record_counterexample :
    ((sampleTaskOn [sampleHost 1, sampleHost 2]).execute sampleRemoteTimeout
        sampleShard sampleJob).result =
      ExecuteResult.raisedRuntimeError
        "SaveToTablePartitionTask::execute failed: connection timed out, connection timed out" ∧
    ((sampleTaskOn [sampleHost 3, sampleHost 4]).execute sampleRemoteTimeout
        sampleShard sampleJob).result =
      ExecuteResult.raisedRuntimeError
        "SaveToTablePartitionTask::execute failed: connection timed out, connection timed out" ∧
    [sampleHost 1, sampleHost 2] ≠ [sampleHost 3, sampleHost 4] := by
  refine ⟨by decide, by decide, by decide⟩

/-- C15, amended: when the replicas `pre` at the head of the replica list all
throw a `StandardException`, `execute` has called exactly them, has recorded
exactly their descriptions `e.what()` in replica order (no host), and goes on
with the next replica; when no replica is left, the error raised is made of
these descriptions alone. -/
theorem failed_attempt_records_description (self : SaveToTablePartitionTask)
    (executeRemote : MapReduceTaskShard → MapReduceScheduler → List String →
      ReplicaRef → RemoteOutcome)
    (shard : MapReduceTaskShard) (job : MapReduceScheduler) (whats : ReplicaRef → String)
    (pre rest : List ReplicaRef)
    (hsplit : self.repl_.replicasFor self.partition_key_ = pre ++ rest)
    (hfail : ∀ x ∈ pre, executeRemote shard job (inputTables shard job) x
      = RemoteOutcome.standardException (whats x)) :
    self.execute executeRemote shard job =
        executeLoop (executeRemote shard job (inputTables shard job)) rest
          (pre.map whats) pre ∧
      (rest = [] → self.execute executeRemote shard job =
        { attempts := pre,
          result := ExecuteResult.raisedRuntimeError
            ("SaveToTablePartitionTask::execute failed: " ++
              ", ".intercalate (pre.map whats)) }) := by
  have h : self.execute executeRemote shard job =
      executeLoop (executeRemote shard job (inputTables shard job)) rest
        (pre.map whats) pre := by
    unfold SaveToTablePartitionTask.execute
    simp only [hsplit]
    rw [executeLoop_skip_failed _ whats pre rest [] [] hfail]
    simp
  refine ⟨h, ?_⟩
  intro hrest
  rw [h, hrest]
  simp [executeLoop, executeFailedMessage, StringUtil.join]

/-- Witness of `failed_attempt_records_description`: replicas `[h1, h2, h3]` where `h1`
and `h2` fail; the loop goes on with `h3`. -/
theorem failed_attempt_records_description_witness :
    sampleTask.execute sampleRemote sampleShard sampleJob =
        executeLoop (sampleRemote sampleShard sampleJob (inputTables sampleShard sampleJob))
          [sampleHost 3] ([sampleHost 1, sampleHost 2].map (fun x => x.name ++ " is down"))
          [sampleHost 1, sampleHost 2] ∧
      ([sampleHost 3] = [] → sampleTask.execute sampleRemote sampleShard sampleJob =
        { attempts := [sampleHost 1, sampleHost 2],
          result := ExecuteResult.raisedRuntimeError
            ("SaveToTablePartitionTask::execute failed: " ++
              ", ".intercalate
                ([sampleHost 1, sampleHost 2].map (fun x => x.name ++ " is down"))) }) :=
  failed_attempt_records_description sampleTask sampleRemote sampleShard sampleJob
    (fun x => x.name ++ " is down") [sampleHost 1, sampleHost 2] [sampleHost 3] rfl
    (by
      intro x hx
      have h3 : x ≠ sampleHost 3 := by
        rcases List.mem_cons.1 hx with rfl | hx
        · decide
        · rcases List.mem_cons.1 hx with rfl | hx
          · decide
          · simp at hx
      exact if_neg h3)

/-! ## Empty replica list (C16) -/

/-- C16: when `replicasFor(partition_key)` is empty, `execute` calls no replica,
returns no result and raises the runtime error whose message is exactly
`"SaveToTablePartitionTask::execute failed: "`, whatever the shard, its
dependencies and the scheduler. -/
theorem execute_without_replicas (self : SaveToTablePartitionTask)
    (executeRemote : MapReduceTaskShard → MapReduceScheduler → List String →
      ReplicaRef → RemoteOutcome)
    (shard : MapReduceTaskShard) (job : MapReduceScheduler)
    (hempty : self.repl_.replicasFor self.partition_key_ = []) :
    self.execute executeRemote shard job =
      { attempts := [],
        result := ExecuteResult.raisedRuntimeError
          "SaveToTablePartitionTask::execute failed: " } := by
  unfold SaveToTablePartitionTask.execute
  simp only [hempty, executeLoop, executeFailedMessage, StringUtil.join]
  rfl

/-- Witness of `execute_without_replicas`: the sample task with no replica. -/
theorem execute_without_replicas_witness :
    (sampleTaskOn []).execute sampleRemote sampleShard sampleJob =
      { attempts := [],
        result := ExecuteResult.raisedRuntimeError
          "SaveToTablePartitionTask::execute failed: " } :=
  execute_without_replicas (sampleTaskOn []) sampleRemote sampleShard sampleJob rfl

/-! ## The dependency list as a concatenation (C17) -/

/-- The collecting loop of the constructor appends the shard lists of the
sources, in order, to what it started with. -/
theorem collectInput_eq_flatten :
    ∀ (sources : List MapReduceTask) (input : List Nat),
      collectInput input sources = input ++ (sources.map MapReduceTask.shards).flatten := by
  intro sources
  induction sources with
  | nil => intro input; simp [collectInput]
  | cons a sources ih =>
    intro input
    rw [collectInput, ih (input ++ a.shards)]
    simp

/-- C17: the dependency list of the shard created by the constructor is the
concatenation, in the order of `sources`, of the shard-index lists of the
upstream tasks; its length is the sum of their lengths, and an index occurs
in it as often as it occurs in all the upstream lists together. -/
theorem dependencies_are_concatenation (self : TaskRef) (table_name : String)
    (partition_key : SHA1Hash) (sources : List MapReduceTask)
    (shards : MapReduceShardList) (repl : ReplicationScheme) :
    ∃ shard,
      (SaveToTablePartitionTask.new self table_name partition_key sources shards repl).2
        = shards ++ [shard] ∧
      shard.dependencies = (sources.map MapReduceTask.shards).flatten ∧
      shard.dependencies.length = (sources.map (fun src => src.shards.length)).sum ∧
      ∀ idx, shard.dependencies.count idx
        = (sources.map (fun src => src.shards.count idx)).sum := by
  have h := collectInput_eq_flatten sources []
  rw [List.nil_append] at h
  refine ⟨{ task := self, dependencies := collectInput [] sources }, rfl, h, ?_, ?_⟩
  · simp only [h, List.length_flatten, List.map_map]
    rfl
  · intro idx
    simp only [h, List.count_flatten, List.map_map]
    rfl

/-- An upstream task listed twice contributes its indices twice. -/
theorem sample_dependencies_repeat :
    ((SaveToTablePartitionTask.new 7 "t" "k"
        [{ shards_ := [0, 1] }, { shards_ := [2] }, { shards_ := [0, 1] }] []
        { replicasFor := fun _ => [] }).2.map MapReduceTaskShard.dependencies)
      = [[0, 1, 2, 0, 1]] := by
  decide

end zbase

namespace CmReportBuild

/-! ## File names -/

/-- The digit characters carry their value. -/
theorem digitValue_digitChar (k : Nat) (hk : k < 10) : digitValue (Nat.digitChar k) = k := by
  interval_cases k <;> rfl

/-- Reading back the digits written by `Nat.toDigitsCore` gives the number. -/
theorem decimalValue_toDigitsCore :
    ∀ (fuel n : Nat) (ds : List Char), n < fuel →
      decimalValue 0 (Nat.toDigitsCore 10 fuel n ds) = decimalValue n ds := by
  intro fuel
  induction fuel with
  | zero => intro n ds h; omega
  | succ fuel ih =>
    intro n ds h
    rw [Nat.toDigitsCore]
    split
    · rename_i h0
      have hn : n < 10 := by omega
      simp only [decimalValue, List.foldl_cons]
      rw [digitValue_digitChar _ (Nat.mod_lt _ (by decide)), Nat.mod_eq_of_lt hn]
      simp
    · rename_i h0
      rw [ih (n / 10) _ (by omega)]
      simp only [decimalValue, List.foldl_cons]
      rw [digitValue_digitChar _ (Nat.mod_lt _ (by decide))]
      congr 1
      omega

/-- Different numbers have different decimal renderings. -/
theorem toString_nat_injective (a b : Nat) (h : toString a = toString b) : a = b := by
  have h1 : (Nat.toDigits 10 a) = (Nat.toDigits 10 b) := by
    have := congrArg String.data h
    exact this
  have ha := decimalValue_toDigitsCore (a + 1) a [] (by omega)
  have hb := decimalValue_toDigitsCore (b + 1) b [] (by omega)
  unfold Nat.toDigits at h1
  rw [h1, hb] at ha
  simpa [decimalValue] using ha.symm

/-- Two lists that agree after each is cut at its first dot. -/
theorem append_dot_cancel :
    ∀ (l₁ l₂ r₁ r₂ : List Char), '.' ∉ l₁ → '.' ∉ l₂ →
      l₁ ++ '.' :: r₁ = l₂ ++ '.' :: r₂ → l₁ = l₂ ∧ r₁ = r₂ := by
  intro l₁
  induction l₁ with
  | nil =>
    intro l₂ r₁ r₂ _ h2 h
    cases l₂ with
    | nil => simpa using h
    | cons c l₂ =>
      simp only [List.nil_append, List.cons_append, List.cons.injEq] at h
      exact absurd (h.1 ▸ List.mem_cons_self _ _) h2
  | cons a l₁ ih =>
    intro l₂ r₁ r₂ h1 h2 h
    cases l₂ with
    | nil =>
      simp only [List.nil_append, List.cons_append, List.cons.injEq] at h
      exact absurd (h.1 ▸ List.mem_cons_self _ _) h1
    | cons c l₂ =>
      simp only [List.cons_append, List.cons.injEq] at h
      obtain ⟨rfl, h⟩ := h
      obtain ⟨e1, e2⟩ := ih l₂ r₁ r₂ (fun hm => h1 (List.mem_cons_of_mem _ hm))
        (fun hm => h2 (List.mem_cons_of_mem _ hm)) h
      exact ⟨by rw [e1], e2⟩

/-- No stem contains a dot. -/
theorem stem_no_dot (t : Table) : '.' ∉ t.stem.data := by
  cases t <;> decide

/-- Different patterns have different stems. -/
theorem stem_injective (t₁ t₂ : Table) (h : t₁.stem.data = t₂.stem.data) : t₁ = t₂ := by
  cases t₁ <;> cases t₂ <;> first | rfl | (exact absurd h (by decide))

/-- Different patterns or different generations give different file names. -/
theorem sstablePath_inj (dir : String) (t₁ t₂ : Table) (g₁ g₂ : Nat) :
    sstablePath dir t₁ g₁ = sstablePath dir t₂ g₂ ↔ t₁ = t₂ ∧ g₁ = g₂ := by
  constructor
  · intro h
    have hd := congrArg String.data h
    simp only [sstablePath, String.data_append, List.append_assoc] at hd
    have h1 := List.append_cancel_left hd
    have h2 := List.append_cancel_left h1
    have h3 := append_dot_cancel _ _ _ _ (stem_no_dot t₁) (stem_no_dot t₂) h2
    refine ⟨stem_injective _ _ h3.1, ?_⟩
    have h3b : (toString g₁).data ++ ".sstable".data = (toString g₂).data ++ ".sstable".data :=
      h3.2
    have h4 := List.append_cancel_right h3b
    exact toString_nat_injective _ _ (String.ext h4)
  · rintro ⟨rfl, rfl⟩
    rfl

/-! ## The registration sequence of `main` -/

/-- Restatement of `mkGenerations_eq_image` with `generationsSet`. -/
theorem mkGenerations_eq_generationsSet (wall w r t fuel : Nat) (hw : 0 < w)
    (hno : (r + w) * kMicrosPerSecond < U64) (hf : passes w r < fuel) :
    mkGenerations wall w r t fuel =
      Outcome.done (generationsSet (nowMicros wall t) w (passes w r)) :=
  mkGenerations_eq_image wall w r t fuel hw hno hf

/-- The call for `day_gens` always ends. -/
theorem day_gens_eq (clock : WallClock) (og fuel : Nat) (hf : 6 < fuel) :
    day_gens (clock.atDayGens og) og fuel = Outcome.done (dayGensSet clock og) := by
  have hp : passes (4 * kSecondsPerHour) (1 * kSecondsPerDay) = 6 := by decide
  rw [day_gens, mkGenerations_eq_generationsSet _ _ _ _ fuel (by decide) (by decide)
    (by rw [hp]; exact hf), hp, dayGensSet]

/-- The call for `month_gens` always ends. -/
theorem month_gens_eq (clock : WallClock) (og fuel : Nat) (hf : 30 < fuel) :
    month_gens (clock.atMonthGens og) og fuel = Outcome.done (monthGensSet clock og) := by
  have hp : passes (1 * kSecondsPerDay) (30 * kSecondsPerDay) = 30 := by decide
  rw [month_gens, mkGenerations_eq_generationsSet _ _ _ _ fuel (by decide) (by decide)
    (by rw [hp]; exact hf), hp, monthGensSet]

/-- The call for the 4-hourly generations always ends. -/
theorem hourly_generations_eq (clock : WallClock) (fuel : Nat) (hf : 360 < fuel) :
    mkGenerations clock.atHourly (4 * kSecondsPerHour) (60 * kSecondsPerDay) 0 fuel =
      Outcome.done (hourlyGenerations clock) := by
  have hp : passes (4 * kSecondsPerHour) (60 * kSecondsPerDay) = 360 := by decide
  rw [mkGenerations_eq_generationsSet _ _ _ _ fuel (by decide) (by decide)
    (by rw [hp]; exact hf), hp, hourlyGenerations]
  rfl

/-- The call for the daily generations always ends. -/
theorem daily_generations_eq (clock : WallClock) (fuel : Nat) (hf : 60 < fuel) :
    mkGenerations clock.atDaily (1 * kSecondsPerDay) (60 * kSecondsPerDay) 0 fuel =
      Outcome.done (dailyGenerations clock) := by
  have hp : passes (1 * kSecondsPerDay) (60 * kSecondsPerDay) = 60 := by decide
  rw [mkGenerations_eq_generationsSet _ _ _ _ fuel (by decide) (by decide)
    (by rw [hp]; exact hf), hp, dailyGenerations]
  rfl

/-- The loop over the daily generations registers the four daily reports of
each generation in turn. -/
theorem dailyLoop_eq (clock : WallClock) (dir : String) (fuel : Nat) (hf : 30 < fuel) :
    ∀ ogs : List Nat, dailyLoop clock dir fuel ogs =
      some (ogs.flatMap
        (fun og => dailyReports dir og (dayGensSet clock og) (monthGensSet clock og))) := by
  intro ogs
  induction ogs with
  | nil => rfl
  | cons og rest ih =>
    rw [dailyLoop, day_gens_eq clock og fuel (by omega), month_gens_eq clock og fuel hf]
    simp only [ih, List.flatMap_cons]

/-- The registration sequence once the calls of `mkGenerations` have returned. -/
theorem registeredReports_of_done (clock : WallClock) (dir : String) (fuel : Nat)
    (hourly daily : Finset Nat) (dailyPart : List Report)
    (h1 : mkGenerations clock.atHourly (4 * kSecondsPerHour) (60 * kSecondsPerDay) 0 fuel =
      Outcome.done hourly)
    (h2 : mkGenerations clock.atDaily (1 * kSecondsPerDay) (60 * kSecondsPerDay) 0 fuel =
      Outcome.done daily)
    (h3 : dailyLoop clock dir fuel (daily.sort (fun a b => a ≤ b)) = some dailyPart) :
    registeredReports clock dir fuel =
      some ((hourly.sort (fun a b => a ≤ b)).flatMap (hourlyReports dir) ++ dailyPart) := by
  simp only [registeredReports, h1, h2, h3]

/-- The reports registered by `main`: registration always ends, with the 4-hourly
reports first and the daily reports after them. -/
theorem registeredReports_eq (clock : WallClock) (dir : String) (fuel : Nat)
    (hf : 360 < fuel) :
    registeredReports clock dir fuel =
      some (((hourlyGenerations clock).sort (fun a b => a ≤ b)).flatMap (hourlyReports dir) ++
        ((dailyGenerations clock).sort (fun a b => a ≤ b)).flatMap
          (fun og => dailyReports dir og (dayGensSet clock og) (monthGensSet clock og))) :=
  registeredReports_of_done clock dir fuel _ _ _ (hourly_generations_eq clock fuel hf)
    (daily_generations_eq clock fuel (by omega)) (dailyLoop_eq clock dir fuel (by omega) _)

end CmReportBuild

namespace CmReportBuild

/-! ## Registration order (C14) -/


/-- No report writes a file that a 4-hourly report reads. -/
theorem hourly_reads_no_sink (dir : String) (g : Nat) (a b : Report)
    (ha : a ∈ hourlyReports dir g)
    (hb : (∃ g', b ∈ hourlyReports dir g') ∨ ∃ og dg mg, b ∈ dailyReports dir og dg mg) :
    b.sink ∉ a.sources := by
  simp only [hourlyReports, dailyReports, List.mem_cons, List.mem_singleton,
    List.not_mem_nil, or_false] at ha hb
  rcases ha with rfl | rfl | rfl | rfl <;>
    rcases hb with ⟨g', rfl | rfl | rfl | rfl⟩ | ⟨og, dg, mg, rfl | rfl | rfl | rfl⟩ <;>
    simp [sstablePath_inj]

/-- A daily report reads the sink of another daily report only if it is the
30-day merge and the other report is the related-terms report of a generation
in `month_gens`. -/
theorem daily_reads_daily_sink (dir : String) (og og' : Nat) (dg mg dg' mg' : Finset Nat)
    (a b : Report) (ha : a ∈ dailyReports dir og dg mg) (hb : b ∈ dailyReports dir og' dg' mg')
    (hmonth : og' ∉ mg) : b.sink ∉ a.sources := by
  simp only [dailyReports, List.mem_cons, List.mem_singleton,
    List.not_mem_nil, or_false] at ha hb
  rcases ha with rfl | rfl | rfl | rfl <;> rcases hb with rfl | rfl | rfl | rfl <;>
    simp [sstablePath_inj, hmonth]

/-- Within one daily generation no report reads the sink of a later one. -/
theorem dailyReports_pairwise (dir : String) (og : Nat) (dg mg : Finset Nat) :
    RespectsDependencyOrder (dailyReports dir og dg mg) := by
  simp [RespectsDependencyOrder, dailyReports, sstablePath_inj]

/-- Within one 4-hourly generation no report reads the sink of a later one. -/
theorem hourlyReports_pairwise (dir : String) (g : Nat) :
    RespectsDependencyOrder (hourlyReports dir g) := by
  simp [RespectsDependencyOrder, hourlyReports, sstablePath_inj]


/-- The subtraction `now - i` of the loop when it does not wrap. -/
theorem sub_no_wrap (now i : Nat) (hnow : now < U64) (hi : i ≤ now) :
    (now + U64 - i) % U64 = now - i := by
  rw [show now + U64 - i = now - i + U64 by omega, Nat.add_mod_right]
  exact Nat.mod_eq_of_lt (by omega)

/-- The subtraction `now - i` of the loop when it wraps. -/
theorem sub_wrap (now i : Nat) (hi : now < i) (hi2 : i ≤ U64) :
    (now + U64 - i) % U64 = now + U64 - i :=
  Nat.mod_eq_of_lt (by omega)

/-- With the wall clock more than 60 days after the epoch, the daily generations
are the 60 days up to the day of the instant before the clock reading. -/
theorem dailyGenerations_bounds (clock : WallClock) (hlo : 60 * kMicrosPerDay < clock.atDaily)
    (hhi : clock.atDaily < U64) (og : Nat) (hog : og ∈ dailyGenerations clock) :
    (clock.atDaily - 1) / kMicrosPerDay - 59 ≤ og ∧ og ≤ (clock.atDaily - 1) / kMicrosPerDay ∧
      60 ≤ (clock.atDaily - 1) / kMicrosPerDay := by
  simp only [dailyGenerations, generationsSet, Finset.mem_image, Finset.mem_range] at hog
  obtain ⟨k, hk, rfl⟩ := hog
  rw [Nat.mod_eq_of_lt hhi, sub_no_wrap _ _ hhi
    (by simp only [kMicrosPerDay, kMicrosPerSecond, kSecondsPerDay] at hlo ⊢; omega)]
  simp only [kMicrosPerDay, kMicrosPerSecond, kSecondsPerDay] at hlo ⊢
  omega

/-- The set `month_gens` of a generation `og ≥ 1` holds no generation from `og`
to `og + 59`: its ids are below `og`, or far above when the subtraction wraps. -/
theorem monthGensSet_not_later (clock : WallClock) (og og' : Nat) (h1 : 1 ≤ og)
    (hbig : og * kMicrosPerDay < U64) (hle : og ≤ og') (hspan : og' ≤ og + 59) :
    og' ∉ monthGensSet clock og := by
  intro hmem
  have hsecs : (og * kSecondsPerDay) % U64 = og * kSecondsPerDay :=
    Nat.mod_eq_of_lt (by simp only [kMicrosPerDay, kSecondsPerDay, U64] at hbig ⊢; omega)
  have hne : og * kSecondsPerDay ≠ 0 := by simp only [kSecondsPerDay]; omega
  have hnow : (og * kSecondsPerDay * kMicrosPerSecond) % U64
      = og * kSecondsPerDay * kMicrosPerSecond :=
    Nat.mod_eq_of_lt (by
      simp only [kMicrosPerDay, kSecondsPerDay, kMicrosPerSecond, U64] at hbig ⊢; omega)
  simp only [monthGensSet, generationsSet, nowMicros, hsecs, if_neg hne, hnow, Finset.mem_image,
    Finset.mem_range] at hmem
  obtain ⟨k, hk, hkeq⟩ := hmem
  by_cases hwrap : 1 + k * (kMicrosPerSecond * (1 * kSecondsPerDay))
      ≤ og * kSecondsPerDay * kMicrosPerSecond
  · rw [sub_no_wrap _ _ (by
      simp only [kMicrosPerDay, kSecondsPerDay, kMicrosPerSecond, U64] at hbig ⊢; omega)
      hwrap] at hkeq
    simp only [kMicrosPerDay, kMicrosPerSecond, kSecondsPerDay, U64] at hbig hkeq hwrap
    omega
  · rw [sub_wrap _ _ (by omega)
      (by simp only [kMicrosPerSecond, kSecondsPerDay, U64]; omega)] at hkeq
    simp only [kMicrosPerDay, kMicrosPerSecond, kSecondsPerDay, U64] at hbig hkeq hwrap
    omega


/-- In a strictly ascending list a relation that holds pairwise holds for any two
members in ascending order. -/
theorem pairwise_apply_of_lt {S : Nat → Nat → Prop} :
    ∀ {l : List Nat}, l.Pairwise (fun a b => a < b) → l.Pairwise S →
      ∀ {a b : Nat}, a ∈ l → b ∈ l → a < b → S a b := by
  intro l
  induction l with
  | nil => intro _ _ a b ha; simp at ha
  | cons x xs ih =>
    intro hs hS a b ha hb hab
    rw [List.pairwise_cons] at hs hS
    rcases List.mem_cons.1 ha with rfl | ha'
    · rcases List.mem_cons.1 hb with rfl | hb'
      · omega
      · exact hS.1 b hb'
    · rcases List.mem_cons.1 hb with rfl | hb'
      · have := hs.1 a ha'
        omega
      · exact ih hs.2 hS.2 ha' hb' hab

/-- C14, amended: when the wall clock read for the daily generations is more
than 60 days after the epoch (and a `uint64_t`), registration ends and no
registered report reads a file that is the sink of a report registered
after it, for every artifact directory and every other clock reading. -/
theorem registration_order_amended (clock : WallClock) (dir : String) (fuel : Nat)
    (hf : 360 < fuel) (hlo : 60 * kMicrosPerDay < clock.atDaily) (hhi : clock.atDaily < U64) :
    ∃ reports, registeredReports clock dir fuel = some reports ∧
      RespectsDependencyOrder reports := by
  refine ⟨_, registeredReports_eq clock dir fuel hf, ?_⟩
  unfold RespectsDependencyOrder
  rw [List.pairwise_append]
  refine ⟨?_, ?_, ?_⟩
  · rw [List.pairwise_flatMap]
    refine ⟨fun g _ => hourlyReports_pairwise dir g, List.pairwise_of_forall ?_⟩
    intro g g' x hx y hy
    exact hourly_reads_no_sink dir g x y hx (Or.inl ⟨g', hy⟩)
  · rw [List.pairwise_flatMap]
    refine ⟨fun og _ => dailyReports_pairwise dir og _ _, ?_⟩
    refine List.Pairwise.imp_of_mem ?_ (Finset.sort_sorted_lt (dailyGenerations clock))
    intro a b ha hb hab x hx y hy
    have hab' : a < b := hab
    obtain ⟨ha1, ha2, ha3⟩ :=
      dailyGenerations_bounds clock hlo hhi a ((Finset.mem_sort _).1 ha)
    obtain ⟨hb1, hb2, _⟩ :=
      dailyGenerations_bounds clock hlo hhi b ((Finset.mem_sort _).1 hb)
    have hday : (clock.atDaily - 1) / kMicrosPerDay * kMicrosPerDay ≤ clock.atDaily - 1 :=
      Nat.div_mul_le_self _ _
    have hbig : a * kMicrosPerDay < U64 :=
      lt_of_le_of_lt (le_trans (Nat.mul_le_mul_right _ ha2) hday) (by omega)
    exact daily_reads_daily_sink dir a b _ _ _ _ x y hx hy
      (monthGensSet_not_later clock a b (by omega) hbig (by omega) (by omega))
  · intro a ha b hb
    obtain ⟨g, _, hag⟩ := List.mem_flatMap.1 ha
    obtain ⟨og, _, hbog⟩ := List.mem_flatMap.1 hb
    exact hourly_reads_no_sink dir g a b hag (Or.inr ⟨og, _, _, hbog⟩)

/-- Witness of `registration_order_amended`: the clock frozen at 1451610000 seconds. -/
theorem registration_order_amended_witness :
    ∃ reports, registeredReports (frozenClock 1451610000000000) "/artifacts" 361 = some reports ∧
      RespectsDependencyOrder reports :=
  registration_order_amended (frozenClock 1451610000000000) "/artifacts" 361 (by decide)
    (by decide) (by decide)

/-- C14, as stated, fails. With the wall clock at 5184000000000 microseconds (60
days after the epoch) the daily generations are 0..59. Generation 0 comes
first, and for it `og * kSecondsPerDay` is 0, so `month_gens` is taken from
the wall clock and is 30..59: the 30-day merge of generation 0 reads the
related-terms file of generation 59, whose report is registered later. -/
theorem registration_order_counterexample :
    ∃ reports, registeredReports (frozenClock 5184000000000) "/artifacts" 361 = some reports ∧
      ¬ RespectsDependencyOrder reports := by
  refine ⟨_, registeredReports_eq (frozenClock 5184000000000) "/artifacts" 361 (by decide), ?_⟩
  intro h
  unfold RespectsDependencyOrder at h
  rw [List.pairwise_append] at h
  have h2 := h.2.1
  rw [List.pairwise_flatMap] at h2
  have h0 : 0 ∈ dailyGenerations (frozenClock 5184000000000) :=
    Finset.mem_image.2 ⟨59, Finset.mem_range.2 (by decide), by decide⟩
  have h59 : 59 ∈ dailyGenerations (frozenClock 5184000000000) :=
    Finset.mem_image.2 ⟨0, Finset.mem_range.2 (by decide), by decide⟩
  have hm : 59 ∈ monthGensSet (frozenClock 5184000000000) 0 :=
    Finset.mem_image.2 ⟨0, Finset.mem_range.2 (by decide), by decide⟩
  have hS := pairwise_apply_of_lt (Finset.sort_sorted_lt _) h2.2
    ((Finset.mem_sort _).2 h0) ((Finset.mem_sort _).2 h59) (by decide)
  refine hS _ (List.mem_cons_of_mem _ (List.mem_cons_of_mem _ (List.mem_cons_of_mem _
    (List.mem_cons_self _ _)))) _ (List.mem_cons_of_mem _ (List.mem_cons_of_mem _
    (List.mem_cons_self _ _))) ?_
  exact Finset.mem_image.2 ⟨59, hm, rfl⟩


/-! ## Loop mode (C18) -/

end CmReportBuild
